import Mathlib

/-! Verification of the cross-language JSON response builder
(`jsonResponse` in JavaScript/TypeScript, `jsonResponse` in PHP,
`JsonResponse` in Go) against its natural-language specification.

JavaScript values are modelled by `JSValue`; numbers are modelled as
rationals (JS doubles are a subset), with a separate `nan` constructor
because `NaN` is of type `number` yet all order comparisons on it are
false.  `JSON.stringify(v, null, 2)` is modelled by `serVal` /
`stringifyPretty2` and JSON decoding by the executable parser
`parseJson`.  PHP and Go values and their encoders are modelled in the
`PHP` and `GoLib` namespaces.
-/

inductive JSValue where
  | undef
  | null
  | bool (b : Bool)
  | num (q : ℚ)
  | nan
  | str (s : String)
  | arr (elems : List JSValue)
  | obj (fields : List (String × JSValue))

/-- `typeof v === 'number'` (true for `NaN` as well). -/
def typeofIsNumber : JSValue → Bool
  | .num _ => true
  | .nan => true
  | _ => false

/-- `typeof v === 'string'`. -/
def typeofIsString : JSValue → Bool
  | .str _ => true
  | _ => false

/-- JS `v < b` for a value already known to be a number; comparisons on
`NaN` are false. Only reached after the `typeof` check in the source. -/
def jsLt : JSValue → ℚ → Bool
  | .num q, b => decide (q < b)
  | _, _ => false

/-- JS `v > b`, as in `jsLt`. -/
def jsGt : JSValue → ℚ → Bool
  | .num q, b => decide (q > b)
  | _, _ => false

/-- JS truthiness: `undefined`, `null`, `false`, `0`, `NaN` and `""` are
falsy; everything else (including `[]` and `\x7b\x7d`) is truthy. -/
def jsTruthy : JSValue → Bool
  | .undef => false
  | .null => false
  | .bool b => b
  | .num q => decide (q ≠ 0)
  | .nan => false
  | .str s => decide (s ≠ "")
  | .arr _ => true
  | .obj _ => true

def isUndef : JSValue → Bool
  | .undef => true
  | _ => false

/-! Section: Character and number printing helpers -/

def isWs (c : Char) : Bool :=
  c.toNat = 32 || c.toNat = 10 || c.toNat = 9 || c.toNat = 13

def isDigitChar (c : Char) : Bool :=
  decide (48 ≤ c.toNat) && decide (c.toNat ≤ 57)

/-- Decimal digits of `n`, most significant first (fuelled; the fuel
`n` itself always suffices). -/
def natToCharsAux : Nat → Nat → List Char
  | 0, n => [Nat.digitChar n]
  | fuel + 1, n =>
    if n < 10 then [Nat.digitChar n]
    else natToCharsAux fuel (n / 10) ++ [Nat.digitChar (n % 10)]

def natToChars (n : Nat) : List Char := natToCharsAux n n

def intToChars (i : ℤ) : List Char :=
  (if i < 0 then ['-'] else []) ++ natToChars i.natAbs

/-- Decimal digits of the fractional part `q` (with `0 ≤ q < 1`), fuelled. -/
def fracDigits : ℚ → Nat → List Char
  | _, 0 => []
  | q, fuel+1 =>
    if q = 0 then []
    else Nat.digitChar (⌊q * 10⌋).toNat :: fracDigits (q * 10 - ⌊q * 10⌋) fuel

/-- JS number printing: integers print without a decimal point, other
(dyadic, double-representable) values print as a finite decimal. -/
def jsNumToChars (q : ℚ) : List Char :=
  if q.den = 1 then intToChars q.num
  else (if q < 0 then ['-'] else []) ++
    natToChars (⌊|q|⌋).toNat ++ '.' :: fracDigits (|q| - ⌊|q|⌋) 40

def hexDigit (n : Nat) : Char :=
  if n < 10 then Char.ofNat (48 + n) else Char.ofNat (87 + n)

/-- JSON string escaping as performed by `JSON.stringify`: quote and
backslash get two-character escapes, control characters get shortcut or
`\u00XX` escapes, all other characters are emitted unchanged. -/
def escapeChar (c : Char) : List Char :=
  if c = '"' then ['\\', '"']
  else if c = '\\' then ['\\', '\\']
  else if c.toNat = 8 then ['\\', 'b']
  else if c.toNat = 12 then ['\\', 'f']
  else if c.toNat = 10 then ['\\', 'n']
  else if c.toNat = 13 then ['\\', 'r']
  else if c.toNat = 9 then ['\\', 't']
  else if c.toNat < 32 then
    ['\\', 'u', '0', '0', hexDigit (c.toNat / 16), hexDigit (c.toNat % 16)]
  else [c]

def escChars : List Char → List Char
  | [] => []
  | c :: cs => escapeChar c ++ escChars cs

/-! Section: The pretty serializer: JSON.stringify(v, null, 2) -/

def indentChars (d : Nat) : List Char := List.replicate (2 * d) ' '

def nlIndent (d : Nat) : List Char := '\n' :: indentChars d

def nullChars : List Char := ['n', 'u', 'l', 'l']

/-- Is some object entry defined (not `undefined`)?  `JSON.stringify`
skips entries whose value is `undefined`. -/
def hasDefined (l : List (String × JSValue)) : Bool :=
  l.any fun p => !isUndef p.2

mutual

def serVal : JSValue → Nat → List Char
  | .undef, _ => []
  | .null, _ => nullChars
  | .nan, _ => nullChars
  | .bool true, _ => ['t', 'r', 'u', 'e']
  | .bool false, _ => ['f', 'a', 'l', 's', 'e']
  | .num q, _ => jsNumToChars q
  | .str s, _ => '"' :: (escChars s.data ++ ['"'])
  | .arr [], _ => ['[', ']']
  | .arr (x :: xs), d =>
    '[' :: (nlIndent (d+1) ++ serItems (x :: xs) (d+1) ++ nlIndent d ++ [']'])
  | .obj l, d =>
    '\x7b' :: (if hasDefined l then
      nlIndent (d+1) ++ serFields l (d+1) ++ nlIndent d ++ ['\x7d']
    else ['\x7d'])

/-- Array items joined by `,` + newline + indent; `undefined` elements
serialize as `null`. -/
def serItems : List JSValue → Nat → List Char
  | [], _ => []
  | [x], d => if isUndef x then nullChars else serVal x d
  | x :: xs, d =>
    (if isUndef x then nullChars else serVal x d) ++
      (',' :: nlIndent d) ++ serItems xs d

/-- Object fields joined by `,` + newline + indent; entries with
`undefined` values are skipped. -/
def serFields : List (String × JSValue) → Nat → List Char
  | [], _ => []
  | (k, x) :: fs, d =>
    if isUndef x then serFields fs d
    else
      ('"' :: (escChars k.data ++ ['"'])) ++ (':' :: ' ' :: serVal x d) ++
        (if hasDefined fs then (',' :: nlIndent d) ++ serFields fs d else [])

end

/-- Model of `JSON.stringify(v, null, 2)` (meaningful for non-`undefined`
input, which is all the builder ever passes). -/
def stringifyPretty2 (v : JSValue) : String := String.mk (serVal v 0)

/-! Section: The JavaScript/TypeScript builder (src/unnamed/part_007, part_006)

```js
function jsonResponse(data = \x7b\x7d, status = 200, message = '') \x7b
    if (typeof status !== 'number' || status < 100 || status > 599) \x7b
        throw new Error('Status must be a valid HTTP status code (100-599)');
    \x7d
    if (typeof message !== 'string') \x7b
        throw new Error('Message must be a string');
    \x7d
    return JSON.stringify(\x7b status, message, data: data || \x7b\x7d \x7d, null, 2);
\x7d
```
-/

def statusErrorMsg : String := "Status must be a valid HTTP status code (100-599)"

def messageErrorMsg : String := "Message must be a string"

/-- Default arguments of the JS builder: `data = \x7b\x7d`, `status = 200`,
`message = ''`. -/
def jsDefaultData : JSValue := .obj []

def jsDefaultStatus : JSValue := .num 200

def jsDefaultMessage : JSValue := .str ""

def statusKey : String := "status"

def messageKey : String := "message"

def dataKey : String := "data"

/-- The object literal `\x7b status, message, data: data || \x7b\x7d \x7d`. -/
def jsEnvelope (data status message : JSValue) : JSValue :=
  .obj [(statusKey, status), (messageKey, message),
        (dataKey, if jsTruthy data then data else .obj [])]

/-- The JS/TS `jsonResponse` function; a thrown `Error` is modelled as
`Except.error` carrying the error message. -/
def jsonResponse (data status message : JSValue) : Except String String :=
  if !typeofIsNumber status || jsLt status 100 || jsGt status 599 then
    .error statusErrorMsg
  else if !typeofIsString message then
    .error messageErrorMsg
  else
    .ok (stringifyPretty2 (jsEnvelope data status message))

/-- Field lookup on a decoded JSON object (first match wins). -/
def lookupPairs : List (String × JSValue) → String → Option JSValue
  | [], _ => none
  | (k2, x) :: rest, k => if k2 = k then some x else lookupPairs rest k

def lookupField : JSValue → String → Option JSValue
  | .obj fields, k => lookupPairs fields k
  | _, _ => none

/-! Section: The PHP builder (src/examples/response.php)

```php
function jsonResponse($data = [], $status = 200, $message = ''): string
\x7b
    if (!is_int($status) || $status < 100 || $status > 599) \x7b
        throw new InvalidArgumentException('Status must be a valid HTTP status code (100-599)');
    \x7d
    if (!is_string($message)) \x7b
        throw new InvalidArgumentException('Message must be a string');
    \x7d
    if ($data === null) \x7b $data = []; \x7d
    if (!is_array($data)) \x7b
        throw new InvalidArgumentException('Data must be an array or null');
    \x7d
    $response = ['status' => $status, 'message' => $message, 'data' => $data];
    $encoded = json_encode($response, JSON_PRETTY_PRINT);
    if ($encoded === false) \x7b throw new RuntimeException('Failed to encode response as JSON'); \x7d
    return $encoded;
\x7d
```

`json_encode(..., JSON_PRETTY_PRINT)` uses FOUR-space indentation,
escapes `/` as `\/`, and serializes an empty PHP array as `[]` (PHP
arrays with sequential integer keys 0..n-1 — in particular the empty
array — encode as JSON arrays, all others as JSON objects).  PHP floats
carry no NAN/INF in this model, so the `json_encode === false` branch
(RuntimeException) is unreachable here.
-/

namespace PHP

inductive PHPKey where
  | i (n : ℤ)
  | s (st : String)

inductive PHPValue where
  | null
  | bool (b : Bool)
  | int (n : ℤ)
  | float (q : ℚ)
  | str (st : String)
  | arr (entries : List (PHPKey × PHPValue))

def is_int : PHPValue → Bool
  | .int _ => true
  | _ => false

def is_string : PHPValue → Bool
  | .str _ => true
  | _ => false

def is_array : PHPValue → Bool
  | .arr _ => true
  | _ => false

def isNull : PHPValue → Bool
  | .null => true
  | _ => false

/-- PHP `$v < b` for a value already known (by `is_int`) to be an
integer; other cases are unreachable after the `is_int` check. -/
def phpLt : PHPValue → ℤ → Bool
  | .int n, b => decide (n < b)
  | _, _ => false

def phpGt : PHPValue → ℤ → Bool
  | .int n, b => decide (n > b)
  | _, _ => false

/-- Does the entry list have exactly the sequential integer keys
`n, n+1, ...`? (`json_encode` emits such arrays as JSON lists.) -/
def isListKeys : List (PHPKey × PHPValue) → ℤ → Bool
  | [], _ => true
  | (.i k, _) :: rest, n => decide (k = n) && isListKeys rest (n + 1)
  | (.s _, _) :: _, _ => false

def hex4 (n : Nat) : List Char :=
  [hexDigit (n / 4096 % 16), hexDigit (n / 256 % 16),
   hexDigit (n / 16 % 16), hexDigit (n % 16)]

/-- PHP `json_encode` string escaping (default flags): like JSON.stringify
but additionally escaping `/` and all non-ASCII characters (basic
multilingual plane modelled) as `\uXXXX`. -/
def phpEscapeChar (c : Char) : List Char :=
  if c = '"' then ['\\', '"']
  else if c = '\\' then ['\\', '\\']
  else if c = '/' then ['\\', '/']
  else if c.toNat = 8 then ['\\', 'b']
  else if c.toNat = 12 then ['\\', 'f']
  else if c.toNat = 10 then ['\\', 'n']
  else if c.toNat = 13 then ['\\', 'r']
  else if c.toNat = 9 then ['\\', 't']
  else if c.toNat < 32 then '\\' :: 'u' :: hex4 c.toNat
  else if 127 ≤ c.toNat then '\\' :: 'u' :: hex4 c.toNat
  else [c]

def phpEscChars : List Char → List Char
  | [] => []
  | c :: cs => phpEscapeChar c ++ phpEscChars cs

def indent4 (d : Nat) : List Char := List.replicate (4 * d) ' '

def nlIndent4 (d : Nat) : List Char := '\n' :: indent4 d

def phpKeyChars : PHPKey → List Char
  | .i n => '"' :: (intToChars n ++ ['"'])
  | .s st => '"' :: (phpEscChars st.data ++ ['"'])

mutual

/-- Model of PHP `json_encode($v, JSON_PRETTY_PRINT)` at indent depth `d`. -/
def phpEnc : PHPValue → Nat → List Char
  | .null, _ => nullChars
  | .bool true, _ => ['t', 'r', 'u', 'e']
  | .bool false, _ => ['f', 'a', 'l', 's', 'e']
  | .int n, _ => intToChars n
  | .float q, _ => jsNumToChars q
  | .str st, _ => '"' :: (phpEscChars st.data ++ ['"'])
  | .arr [], _ => ['[', ']']
  | .arr (e :: es), d =>
    if isListKeys (e :: es) 0 then
      '[' :: (nlIndent4 (d+1) ++ phpEncItems (e :: es) (d+1) ++ nlIndent4 d ++ [']'])
    else
      '\x7b' :: (nlIndent4 (d+1) ++ phpEncFields (e :: es) (d+1) ++ nlIndent4 d ++ ['\x7d'])

def phpEncItems : List (PHPKey × PHPValue) → Nat → List Char
  | [], _ => []
  | [(_, x)], d => phpEnc x d
  | (_, x) :: es, d => phpEnc x d ++ (',' :: nlIndent4 d) ++ phpEncItems es d

def phpEncFields : List (PHPKey × PHPValue) → Nat → List Char
  | [], _ => []
  | [(k, x)], d => phpKeyChars k ++ (':' :: ' ' :: phpEnc x d)
  | (k, x) :: es, d =>
    phpKeyChars k ++ (':' :: ' ' :: phpEnc x d) ++ (',' :: nlIndent4 d) ++ phpEncFields es d

end

def json_encodePretty (v : PHPValue) : String := String.mk (phpEnc v 0)

def dataErrorMsg : String := "Data must be an array or null"

/-- Default arguments: `$data = []`, `$status = 200`, `$message = ''`. -/
def phpDefaultData : PHPValue := .arr []

def phpDefaultStatus : PHPValue := .int 200

def phpDefaultMessage : PHPValue := .str ""

/-- The PHP `jsonResponse` function; a thrown `InvalidArgumentException`
is modelled as `Except.error` carrying the exception message. -/
def jsonResponse (data status message : PHPValue) : Except String String :=
  if !is_int status || phpLt status 100 || phpGt status 599 then
    .error statusErrorMsg
  else if !is_string message then
    .error messageErrorMsg
  else
    let data2 := if isNull data then .arr [] else data
    if !is_array data2 then
      .error dataErrorMsg
    else
      .ok (json_encodePretty (.arr [(.s statusKey, status), (.s messageKey, message),
                                    (.s dataKey, data2)]))

end PHP

/-! Section: The Go builder (src/examples/response.go)

```go
func JsonResponse(data interface\x7b\x7d, status int, message string) (string, error) \x7b
    if status < 100 || status > 599 \x7b
        return "", fmt.Errorf("status must be a valid HTTP status code (100-599)")
    \x7d
    response := Response\x7bStatus: status, Message: message, Data: data\x7d
    jsonString, err := json.MarshalIndent(response, "", "  ")
    ...
    return string(jsonString), nil
\x7d
```

`status` and `message` are statically typed (`int`, `string`), so only
the range check exists.  A `nil` data payload marshals as `null` — there
is no normalization to an empty mapping.  `json.MarshalIndent` uses the
given two-space indent and escapes `<`, `>`, `&` as `<` etc.; map
keys are emitted in sorted order (the model takes field lists as already
sorted, which covers every use in this development).
-/

namespace GoLib

inductive GoValue where
  | nil
  | bool (b : Bool)
  | int (n : ℤ)
  | float (q : ℚ)
  | str (st : String)
  | arr (elems : List GoValue)
  | map (fields : List (String × GoValue))

/-- Go `encoding/json` string escaping: like JSON escaping, with the
HTML-relevant characters `<`, `>`, `&` escaped as `\u00XX` (SetEscapeHTML
defaults to true), and control characters other than newline, carriage
return and tab escaped as `\u00XX`. -/
def goEscapeChar (c : Char) : List Char :=
  if c = '"' then ['\\', '"']
  else if c = '\\' then ['\\', '\\']
  else if c = '<' then ['\\', 'u', '0', '0', '3', 'c']
  else if c = '>' then ['\\', 'u', '0', '0', '3', 'e']
  else if c = '&' then ['\\', 'u', '0', '0', '2', '6']
  else if c.toNat = 10 then ['\\', 'n']
  else if c.toNat = 13 then ['\\', 'r']
  else if c.toNat = 9 then ['\\', 't']
  else if c.toNat < 32 then
    ['\\', 'u', '0', '0', hexDigit (c.toNat / 16), hexDigit (c.toNat % 16)]
  else [c]

def goEscChars : List Char → List Char
  | [] => []
  | c :: cs => goEscapeChar c ++ goEscChars cs

mutual

/-- Model of the `json.MarshalIndent(v, "", "  ")` rendering of a value
at indent depth `d`. -/
def goSer : GoValue → Nat → List Char
  | .nil, _ => nullChars
  | .bool true, _ => ['t', 'r', 'u', 'e']
  | .bool false, _ => ['f', 'a', 'l', 's', 'e']
  | .int n, _ => intToChars n
  | .float q, _ => jsNumToChars q
  | .str st, _ => '"' :: (goEscChars st.data ++ ['"'])
  | .arr [], _ => ['[', ']']
  | .arr (x :: xs), d =>
    '[' :: (nlIndent (d+1) ++ goSerItems (x :: xs) (d+1) ++ nlIndent d ++ [']'])
  | .map [], _ => ['\x7b', '\x7d']
  | .map (f :: fs), d =>
    '\x7b' :: (nlIndent (d+1) ++ goSerFields (f :: fs) (d+1) ++ nlIndent d ++ ['\x7d'])

def goSerItems : List GoValue → Nat → List Char
  | [], _ => []
  | [x], d => goSer x d
  | x :: xs, d => goSer x d ++ (',' :: nlIndent d) ++ goSerItems xs d

def goSerFields : List (String × GoValue) → Nat → List Char
  | [], _ => []
  | [(k, x)], d => '"' :: (goEscChars k.data ++ ['"']) ++ (':' :: ' ' :: goSer x d)
  | (k, x) :: fs, d =>
    '"' :: (goEscChars k.data ++ ['"']) ++ (':' :: ' ' :: goSer x d) ++
      (',' :: nlIndent d) ++ goSerFields fs d

end

def goStatusErrorMsg : String := "status must be a valid HTTP status code (100-599)"

/-- `json.MarshalIndent(Response\x7bStatus, Message, Data\x7d, "", "  ")`: the
struct fields marshal in declaration order under their json tags
`status`, `message`, `data`. -/
def marshalIndentResponse (status : ℤ) (message : String) (data : GoValue) : String :=
  String.mk
    ('\x7b' :: (nlIndent 1 ++
      ('"' :: (goEscChars statusKey.data ++ ['"'])) ++ (':' :: ' ' :: intToChars status) ++
      (',' :: nlIndent 1) ++
      ('"' :: (goEscChars messageKey.data ++ ['"'])) ++
        (':' :: ' ' :: '"' :: (goEscChars message.data ++ ['"'])) ++
      (',' :: nlIndent 1) ++
      ('"' :: (goEscChars dataKey.data ++ ['"'])) ++ (':' :: ' ' :: goSer data 1) ++
      nlIndent 0 ++ ['\x7d']))

/-- The Go `JsonResponse` function; a returned `error` is modelled as
`Except.error` carrying the error text. -/
def JsonResponse (data : GoValue) (status : ℤ) (message : String) :
    Except String String :=
  if status < 100 || status > 599 then
    .error goStatusErrorMsg
  else
    .ok (marshalIndentResponse status message data)

end GoLib

/-! Section: An executable JSON parser (the model of JSON decoding)

A standard recursive-descent JSON parser over `List Char`, fuelled by a
natural number (one unit per nested value).  It accepts the output
grammar of all three pretty-printers above: arbitrary whitespace between
tokens, integer numerals, the escape sequences `\" \\ \/ \b \f \n \r \t
\uXXXX`, and the literals `null`, `true`, `false`.
-/

def skipWs : List Char → List Char
  | [] => []
  | c :: cs => if isWs c then skipWs cs else c :: cs

/-- Consume an expected literal tail (e.g. `ull` after `n`). -/
def expectChars : List Char → List Char → Option (List Char)
  | [], input => some input
  | p :: ps, c :: cs => if c = p then expectChars ps cs else none
  | _ :: _, [] => none

/-- Read a run of decimal digits, accumulating their value. -/
def takeDigits : List Char → Nat → Nat × List Char
  | [], acc => (acc, [])
  | c :: cs, acc =>
    if isDigitChar c then takeDigits cs (acc * 10 + (c.toNat - 48))
    else (acc, c :: cs)

/-- Read a nonempty digit run. -/
def parseNat : List Char → Option (Nat × List Char)
  | [] => none
  | c :: cs => if isDigitChar c then some (takeDigits (c :: cs) 0) else none

def hexVal (c : Char) : Option Nat :=
  if 48 ≤ c.toNat ∧ c.toNat ≤ 57 then some (c.toNat - 48)
  else if 97 ≤ c.toNat ∧ c.toNat ≤ 102 then some (c.toNat - 87)
  else if 65 ≤ c.toNat ∧ c.toNat ≤ 70 then some (c.toNat - 55)
  else none

def unescapeChar (c : Char) : Option Char :=
  if c = '"' then some '"'
  else if c = '\\' then some '\\'
  else if c = '/' then some '/'
  else if c = 'b' then some (Char.ofNat 8)
  else if c = 'f' then some (Char.ofNat 12)
  else if c = 'n' then some (Char.ofNat 10)
  else if c = 'r' then some (Char.ofNat 13)
  else if c = 't' then some (Char.ofNat 9)
  else none

/-- Parse a string body (after the opening quote) up to the closing
quote, undoing escapes. -/
def parseStrBody : List Char → Option (List Char × List Char)
  | [] => none
  | c :: r =>
    if c = '"' then some ([], r)
    else if c = '\\' then
      match r with
      | [] => none
      | e :: r2 =>
        if e = 'u' then
          match r2 with
          | h1 :: h2 :: h3 :: h4 :: r3 =>
            match hexVal h1, hexVal h2, hexVal h3, hexVal h4 with
            | some a, some b, some x, some y =>
              match parseStrBody r3 with
              | some (cs, rest) =>
                some (Char.ofNat (((a * 16 + b) * 16 + x) * 16 + y) :: cs, rest)
              | none => none
            | _, _, _, _ => none
          | _ => none
        else
          match unescapeChar e with
          | some ch =>
            match parseStrBody r2 with
            | some (cs, rest) => some (ch :: cs, rest)
            | none => none
          | none => none
    else
      match parseStrBody r with
      | some (cs, rest) => some (c :: cs, rest)
      | none => none

mutual

/-- Parse one JSON value, skipping leading whitespace. -/
def parseV : Nat → List Char → Option (JSValue × List Char)
  | 0, _ => none
  | fuel + 1, input =>
    match skipWs input with
    | [] => none
    | c :: r =>
      if c = '\x7b' then
        match parseFields fuel r with
        | some (fs, r2) => some (.obj fs, r2)
        | none => none
      else if c = '[' then
        match parseItems fuel r with
        | some (vs, r2) => some (.arr vs, r2)
        | none => none
      else if c = '"' then
        match parseStrBody r with
        | some (cs, r2) => some (.str (String.mk cs), r2)
        | none => none
      else if c = 'n' then
        match expectChars ['u', 'l', 'l'] r with
        | some r2 => some (.null, r2)
        | none => none
      else if c = 't' then
        match expectChars ['r', 'u', 'e'] r with
        | some r2 => some (.bool true, r2)
        | none => none
      else if c = 'f' then
        match expectChars ['a', 'l', 's', 'e'] r with
        | some r2 => some (.bool false, r2)
        | none => none
      else if c = '-' then
        match parseNat r with
        | some (n, r2) => some (.num (-(n : ℚ)), r2)
        | none => none
      else if isDigitChar c then
        match takeDigits (c :: r) 0 with
        | (n, r2) => some (.num (n : ℚ), r2)
      else none

/-- Parse the part of an array after `[`. -/
def parseItems : Nat → List Char → Option (List JSValue × List Char)
  | 0, _ => none
  | fuel + 1, input =>
    match skipWs input with
    | [] => none
    | c :: r =>
      if c = ']' then some ([], r)
      else
        match parseV fuel input with
        | some (v, r1) =>
          match skipWs r1 with
          | [] => none
          | c2 :: r2 =>
            if c2 = ',' then
              match parseItems fuel r2 with
              | some (vs, r3) => some (v :: vs, r3)
              | none => none
            else if c2 = ']' then some ([v], r2)
            else none
        | none => none

/-- Parse the part of an object after the opening brace. -/
def parseFields : Nat → List Char → Option (List (String × JSValue) × List Char)
  | 0, _ => none
  | fuel + 1, input =>
    match skipWs input with
    | [] => none
    | c :: r =>
      if c = '\x7d' then some ([], r)
      else if c = '"' then
        match parseStrBody r with
        | some (kcs, r1) =>
          match skipWs r1 with
          | [] => none
          | c2 :: r2 =>
            if c2 = ':' then
              match parseV fuel r2 with
              | some (v, r3) =>
                match skipWs r3 with
                | [] => none
                | c3 :: r4 =>
                  if c3 = ',' then
                    match parseFields fuel r4 with
                    | some (fs, r5) => some ((String.mk kcs, v) :: fs, r5)
                    | none => none
                  else if c3 = '\x7d' then some ([(String.mk kcs, v)], r4)
                  else none
              | none => none
            else none
        | none => none
      else none

end

/-- JSON decoding of a full document: parse one value and require only
whitespace to remain. -/
def parseJson (s : String) : Option JSValue :=
  match parseV s.length s.data with
  | some (v, rest) => if skipWs rest = [] then some v else none
  | none => none

/-! Section: Auxiliary definitions for the verification -/

mutual

/-- Values for which the printer/parser round-trip is stated: no
`undefined`, no `NaN`, and numbers integral (the printing of a
non-integral double is outside the model). -/
def wfJS : JSValue → Bool
  | .undef => false
  | .nan => false
  | .null => true
  | .bool _ => true
  | .num q => decide (q.den = 1)
  | .str _ => true
  | .arr l => wfList l
  | .obj l => wfFields l

def wfList : List JSValue → Bool
  | [] => true
  | x :: xs => wfJS x && wfList xs

def wfFields : List (String × JSValue) → Bool
  | [] => true
  | (_, x) :: fs => wfJS x && wfFields fs

end

mutual

/-- Fuel sufficient to parse the serialization of a value. -/
def pfuel : JSValue → Nat
  | .arr l => pfuelList l + 1
  | .obj l => pfuelFields l + 1
  | _ => 1

def pfuelList : List JSValue → Nat
  | [] => 1
  | x :: xs => pfuel x + pfuelList xs + 1

def pfuelFields : List (String × JSValue) → Nat
  | [] => 1
  | (_, x) :: fs => pfuel x + pfuelFields fs + 1

end

/-- The closing-bracket tail of a serialized array (everything after `[`). -/
def itemsTail (l : List JSValue) (d : Nat) : List Char :=
  match l with
  | [] => [']']
  | x :: xs => nlIndent (d+1) ++ serItems (x :: xs) (d+1) ++ nlIndent d ++ [']']

/-- The closing-brace tail of a serialized object (everything after the
opening brace). -/
def fieldsTail (l : List (String × JSValue)) (d : Nat) : List Char :=
  if hasDefined l then nlIndent (d+1) ++ serFields l (d+1) ++ nlIndent d ++ ['\x7d']
  else ['\x7d']

def boundary : List Char → Bool
  | [] => true
  | c :: _ => !isDigitChar c

/-- The JS boolean condition of the status check:
`typeof status !== 'number' || status < 100 || status > 599`. -/
def jsStatusBad (st : JSValue) : Bool :=
  !typeofIsNumber st || jsLt st 100 || jsGt st 599

/-- The PHP boolean condition of the status check:
`!is_int($status) || $status < 100 || $status > 599`. -/
def PHP.phpStatusBad (st : PHP.PHPValue) : Bool :=
  !PHP.is_int st || PHP.phpLt st 100 || PHP.phpGt st 599

/-- Output of the JS builder on all-default arguments. -/
def jsDefaultOutput : String :=
  "\x7b\n  \"status\": 200,\n  \"message\": \"\",\n  \"data\": \x7b\x7d\n\x7d"

/-- Output of the PHP builder on all-default arguments (four-space
indentation, empty `data` serialized as `[]`). -/
def phpDefaultOutput : String :=
  "\x7b\n    \"status\": 200,\n    \"message\": \"\",\n    \"data\": []\n\x7d"

/-- Output of the Go builder on `nil` data. -/
def goNilOutput : String :=
  "\x7b\n  \"status\": 200,\n  \"message\": \"Success\",\n  \"data\": null\n\x7d"

/-- Output of the JS builder on `(\x7buser: "John"\x7d, 200, "Success")`. -/
def jsUserOutput : String :=
  "\x7b\n  \"status\": 200,\n  \"message\": \"Success\",\n  \"data\": \x7b\n    \"user\": \"John\"\n  \x7d\n\x7d"

/-- Output of the Go builder on the same input. -/
def goUserOutput : String :=
  "\x7b\n  \"status\": 200,\n  \"message\": \"Success\",\n  \"data\": \x7b\n    \"user\": \"John\"\n  \x7d\n\x7d"

/-- Output of the PHP builder on the same input (four-space indentation). -/
def phpUserOutput : String :=
  "\x7b\n    \"status\": 200,\n    \"message\": \"Success\",\n    \"data\": \x7b\n        \"user\": \"John\"\n    \x7d\n\x7d"

/-! Section: Stripping, number-only well-formedness, and PHP decoding -/

mutual

/-- The value JSON-decoding recovers from a serialized one: `NaN`
serializes as `null`; `undefined` array elements serialize as `null`;
object entries with `undefined` values are dropped.  Everything else is
preserved. -/
def stripJS : JSValue → JSValue
  | .undef => .null
  | .nan => .null
  | .null => .null
  | .bool b => .bool b
  | .num q => .num q
  | .str s => .str s
  | .arr l => .arr (stripList l)
  | .obj l => .obj (stripFields l)

def stripList : List JSValue → List JSValue
  | [] => []
  | x :: xs => stripJS x :: stripList xs

def stripFields : List (String × JSValue) → List (String × JSValue)
  | [] => []
  | (k, x) :: fs =>
    if isUndef x then stripFields fs else (k, stripJS x) :: stripFields fs

end

mutual

/-- All number atoms of a value are integral (the printing of
non-integral doubles is outside the rational-number model); `undefined`
and `NaN` are allowed anywhere. -/
def numsOk : JSValue → Bool
  | .num q => decide (q.den = 1)
  | .arr l => numsOkList l
  | .obj l => numsOkFields l
  | _ => true

def numsOkList : List JSValue → Bool
  | [] => true
  | x :: xs => numsOk x && numsOkList xs

def numsOkFields : List (String × JSValue) → Bool
  | [] => true
  | (_, x) :: fs => numsOk x && numsOkFields fs

end

/-- All characters lie in the basic multilingual plane (PHP escapes
astral characters as surrogate pairs, which are outside the model). -/
def strBMP (s : String) : Bool :=
  s.data.all fun c => decide (c.toNat < 65536)

namespace PHP

def wfPHPKey : PHPKey → Bool
  | .i _ => true
  | .s s => strBMP s

mutual

/-- PHP values inside the decoding model: floats integral, strings and
string keys in the basic multilingual plane. -/
def wfPHP : PHPValue → Bool
  | .null => true
  | .bool _ => true
  | .int _ => true
  | .float q => decide (q.den = 1)
  | .str s => strBMP s
  | .arr l => wfPHPEntries l

def wfPHPEntries : List (PHPKey × PHPValue) → Bool
  | [] => true
  | (k, v) :: rest => wfPHPKey k && wfPHP v && wfPHPEntries rest

end

/-- The JSON string a PHP array key denotes (`json_encode` renders
integer keys as decimal strings). -/
def phpKeyString : PHPKey → String
  | .i n => String.mk (intToChars n)
  | .s s => s

mutual

/-- The JSON value a PHP value denotes: sequential-integer-key arrays
become JSON arrays, all other arrays become JSON objects. -/
def phpToJS : PHPValue → JSValue
  | .null => .null
  | .bool b => .bool b
  | .int n => .num (n : ℚ)
  | .float q => .num q
  | .str s => .str s
  | .arr l => if isListKeys l 0 then .arr (phpToJSList l) else .obj (phpToJSFields l)

def phpToJSList : List (PHPKey × PHPValue) → List JSValue
  | [] => []
  | (_, v) :: rest => phpToJS v :: phpToJSList rest

def phpToJSFields : List (PHPKey × PHPValue) → List (String × JSValue)
  | [] => []
  | (k, v) :: rest => (phpKeyString k, phpToJS v) :: phpToJSFields rest

end

mutual

/-- Parser fuel sufficient for a serialized PHP value. -/
def pfuelPHP : PHPValue → Nat
  | .arr l => pfuelPHPList l + 1
  | _ => 1

def pfuelPHPList : List (PHPKey × PHPValue) → Nat
  | [] => 1
  | (_, v) :: rest => pfuelPHP v + pfuelPHPList rest + 1

end

/-- The tail of a serialized list-form PHP array (everything after `[`). -/
def phpItemsTail (l : List (PHPKey × PHPValue)) (d : Nat) : List Char :=
  match l with
  | [] => [']']
  | e :: es => nlIndent4 (d+1) ++ phpEncItems (e :: es) (d+1) ++ nlIndent4 d ++ [']']

/-- The tail of a serialized object-form PHP array (everything after the
opening brace; object form only arises for nonempty arrays). -/
def phpFieldsTail (l : List (PHPKey × PHPValue)) (d : Nat) : List Char :=
  nlIndent4 (d+1) ++ phpEncFields l (d+1) ++ nlIndent4 d ++ ['\x7d']

end PHP

/-! Section: Whitespace and digit lemmas -/

theorem skipWs_cons_of_not_ws {c : Char} (cs : List Char) (h : isWs c = false) :
    skipWs (c :: cs) = c :: cs := by
  simp [skipWs, h]

theorem skipWs_append_ws {l : List Char} (rest : List Char)
    (h : ∀ c ∈ l, isWs c = true) : skipWs (l ++ rest) = skipWs rest := by
  induction l with
  | nil => rfl
  | cons c cs ih =>
    have hc : isWs c = true := h c (by simp)
    simp only [List.cons_append, skipWs, hc, if_true]
    exact ih fun c hc2 => h c (by simp [hc2])

theorem skipWs_nlIndent (d : Nat) (rest : List Char) :
    skipWs (nlIndent d ++ rest) = skipWs rest := by
  apply skipWs_append_ws
  intro c hc
  simp only [nlIndent, indentChars, List.mem_cons, List.eq_of_mem_replicate] at hc
  rcases hc with h | h
  · rw [h]; rfl
  · rw [List.eq_of_mem_replicate h]; rfl

theorem digitChar_isDigit {n : Nat} (h : n < 10) :
    isDigitChar (Nat.digitChar n) = true := by
  interval_cases n <;> decide

theorem digitChar_toNat {n : Nat} (h : n < 10) :
    (Nat.digitChar n).toNat = 48 + n := by
  interval_cases n <;> decide

theorem natToCharsAux_congr : ∀ f1 : Nat, ∀ f2 n : Nat, n ≤ f1 → n ≤ f2 →
    natToCharsAux f1 n = natToCharsAux f2 n := by
  intro f1
  induction f1 with
  | zero =>
    intro f2 n h1 _
    have hn : n = 0 := by omega
    subst hn
    cases f2 with
    | zero => rfl
    | succ f2 => rw [natToCharsAux, natToCharsAux, if_pos (by omega)]
  | succ f1 ih =>
    intro f2 n h1 h2
    cases f2 with
    | zero =>
      have hn : n = 0 := by omega
      subst hn
      rw [natToCharsAux, natToCharsAux, if_pos (by omega)]
    | succ f2 =>
      rw [natToCharsAux, natToCharsAux]
      by_cases h : n < 10
      · rw [if_pos h, if_pos h]
      · rw [if_neg h, if_neg h, ih f2 (n / 10) (by omega) (by omega)]

/-- The defining recurrence of `natToChars`, independent of fuel. -/
theorem natToChars_eq (n : Nat) : natToChars n =
    if n < 10 then [Nat.digitChar n]
    else natToChars (n / 10) ++ [Nat.digitChar (n % 10)] := by
  show natToCharsAux n n = _
  cases n with
  | zero => rfl
  | succ m =>
    rw [natToCharsAux]
    by_cases h : m + 1 < 10
    · rw [if_pos h, if_pos h]
    · rw [if_neg h, if_neg h,
        natToCharsAux_congr m ((m + 1) / 10) ((m + 1) / 10) (by omega) (by omega)]
      rfl

theorem natToChars_head (n : Nat) :
    ∃ c cs, natToChars n = c :: cs ∧ isDigitChar c = true := by
  induction n using Nat.strong_induction_on with
  | _ n ih =>
    by_cases h : n < 10
    · exact ⟨Nat.digitChar n, [], by rw [natToChars_eq, if_pos h], digitChar_isDigit h⟩
    · obtain ⟨c, cs, hc, hd⟩ := ih (n / 10) (Nat.div_lt_self (by omega) (by omega))
      exact ⟨c, cs ++ [Nat.digitChar (n % 10)],
        by rw [natToChars_eq, if_neg h, hc]; rfl, hd⟩

theorem takeDigits_boundary (rest : List Char) (acc : Nat)
    (h : boundary rest = true) : takeDigits rest acc = (acc, rest) := by
  cases rest with
  | nil => rfl
  | cons c cs =>
    simp only [boundary, Bool.not_eq_true'] at h
    simp [takeDigits, h]

theorem takeDigits_natToChars (n : Nat) : ∀ rest acc,
    takeDigits (natToChars n ++ rest) acc =
      takeDigits rest (acc * 10 ^ (natToChars n).length + n) := by
  induction n using Nat.strong_induction_on with
  | _ n ih =>
  by_cases h : n < 10
  case pos =>
    intro rest acc
    rw [natToChars_eq, if_pos h]
    simp only [List.singleton_append, List.length_singleton, pow_one]
    rw [takeDigits, if_pos (digitChar_isDigit h), digitChar_toNat h]
    congr 1
    omega
  case neg =>
    intro rest acc
    rw [natToChars_eq, if_neg h]
    simp only [List.append_assoc, List.singleton_append, List.length_append,
      List.length_singleton]
    rw [ih (n / 10) (Nat.div_lt_self (by omega) (by omega))]
    rw [takeDigits, if_pos (digitChar_isDigit (Nat.mod_lt n (by omega))),
      digitChar_toNat (Nat.mod_lt n (by omega))]
    congr 1
    have hmod : 48 + n % 10 - 48 = n % 10 := by omega
    rw [hmod, pow_succ]
    have : acc * (10 ^ (natToChars (n / 10)).length * 10) + n =
        (acc * 10 ^ (natToChars (n / 10)).length + n / 10) * 10 + n % 10 := by
      have := Nat.div_add_mod n 10
      ring_nf
      omega
    omega

theorem takeDigits_natToChars_done (n : Nat) (rest : List Char)
    (h : boundary rest = true) :
    takeDigits (natToChars n ++ rest) 0 = (n, rest) := by
  rw [takeDigits_natToChars, takeDigits_boundary _ _ h, Nat.zero_mul, Nat.zero_add]

/-! Section: String escaping round-trip -/

theorem hexVal_hexDigit {k : Nat} (h : k < 16) : hexVal (hexDigit k) = some k := by
  interval_cases k <;> decide

theorem parseStrBody_quote (r : List Char) : parseStrBody ('"' :: r) = some ([], r) := by
  rw [parseStrBody.eq_def]; rfl

theorem parseStrBody_escStep (e : Char) (ch : Char) (r : List Char)
    (h : unescapeChar e = some ch) (hu : ¬e = 'u') :
    parseStrBody ('\\' :: e :: r) =
      match parseStrBody r with
      | some (cs, rest) => some (ch :: cs, rest)
      | none => none := by
  rw [parseStrBody.eq_def]
  dsimp only
  rw [if_neg hu, h]
  rfl

theorem parseStrBody_uStep (a1 a2 a3 a4 : Char) (x1 x2 x3 x4 : Nat) (r : List Char)
    (hh1 : hexVal a1 = some x1) (hh2 : hexVal a2 = some x2)
    (hh3 : hexVal a3 = some x3) (hh4 : hexVal a4 = some x4) :
    parseStrBody ('\\' :: 'u' :: a1 :: a2 :: a3 :: a4 :: r) =
      match parseStrBody r with
      | some (cs, rest) =>
        some (Char.ofNat (((x1 * 16 + x2) * 16 + x3) * 16 + x4) :: cs, rest)
      | none => none := by
  rw [parseStrBody.eq_def]
  dsimp only
  rw [hh1, hh2, hh3, hh4]
  rfl

theorem parseStrBody_plain (c : Char) (r : List Char)
    (h1 : ¬c = '"') (h2 : ¬c = '\\') :
    parseStrBody (c :: r) =
      match parseStrBody r with
      | some (cs, rest) => some (c :: cs, rest)
      | none => none := by
  rw [parseStrBody.eq_def]
  simp only [if_neg h1, if_neg h2]

theorem parseStrBody_escChars (cs : List Char) : ∀ rest,
    parseStrBody (escChars cs ++ '"' :: rest) = some (cs, rest) := by
  induction cs with
  | nil => intro rest; exact parseStrBody_quote rest
  | cons c cs ih =>
    intro rest
    simp only [escChars, List.append_assoc]
    by_cases h1 : c = '"'
    · subst h1
      rw [show escapeChar '"' = ['\\', '"'] from rfl]
      simp only [List.cons_append, List.nil_append]
      rw [parseStrBody_escStep '"' '"' _ rfl (by decide), ih]
    · by_cases h2 : c = '\\'
      · subst h2
        rw [show escapeChar '\\' = ['\\', '\\'] from rfl]
        simp only [List.cons_append, List.nil_append]
        rw [parseStrBody_escStep '\\' '\\' _ rfl (by decide), ih]
      · by_cases h3 : c.toNat = 8
        · have hc : Char.ofNat 8 = c := by rw [← h3, Char.ofNat_toNat]
          rw [escapeChar, if_neg h1, if_neg h2, if_pos h3]
          simp only [List.cons_append, List.nil_append]
          rw [parseStrBody_escStep 'b' (Char.ofNat 8) _ rfl (by decide), ih, hc]
        · by_cases h4 : c.toNat = 12
          · have hc : Char.ofNat 12 = c := by rw [← h4, Char.ofNat_toNat]
            rw [escapeChar, if_neg h1, if_neg h2, if_neg h3, if_pos h4]
            simp only [List.cons_append, List.nil_append]
            rw [parseStrBody_escStep 'f' (Char.ofNat 12) _ rfl (by decide), ih, hc]
          · by_cases h5 : c.toNat = 10
            · have hc : Char.ofNat 10 = c := by rw [← h5, Char.ofNat_toNat]
              rw [escapeChar, if_neg h1, if_neg h2, if_neg h3, if_neg h4, if_pos h5]
              simp only [List.cons_append, List.nil_append]
              rw [parseStrBody_escStep 'n' (Char.ofNat 10) _ rfl (by decide), ih, hc]
            · by_cases h6 : c.toNat = 13
              · have hc : Char.ofNat 13 = c := by rw [← h6, Char.ofNat_toNat]
                rw [escapeChar, if_neg h1, if_neg h2, if_neg h3, if_neg h4, if_neg h5,
                  if_pos h6]
                simp only [List.cons_append, List.nil_append]
                rw [parseStrBody_escStep 'r' (Char.ofNat 13) _ rfl (by decide), ih, hc]
              · by_cases h7 : c.toNat = 9
                · have hc : Char.ofNat 9 = c := by rw [← h7, Char.ofNat_toNat]
                  rw [escapeChar, if_neg h1, if_neg h2, if_neg h3, if_neg h4, if_neg h5,
                    if_neg h6, if_pos h7]
                  simp only [List.cons_append, List.nil_append]
                  rw [parseStrBody_escStep 't' (Char.ofNat 9) _ rfl (by decide), ih, hc]
                · by_cases h8 : c.toNat < 32
                  · rw [escapeChar, if_neg h1, if_neg h2, if_neg h3, if_neg h4, if_neg h5,
                      if_neg h6, if_neg h7, if_pos h8]
                    simp only [List.cons_append, List.nil_append]
                    rw [parseStrBody_uStep '0' '0' _ _ 0 0 (c.toNat / 16) (c.toNat % 16) _
                      (by decide) (by decide)
                      (hexVal_hexDigit (by omega)) (hexVal_hexDigit (by omega)), ih]
                    have harith : ((0 * 16 + 0) * 16 + c.toNat / 16) * 16 + c.toNat % 16 =
                        c.toNat := by omega
                    rw [harith, Char.ofNat_toNat]
                  · rw [escapeChar, if_neg h1, if_neg h2, if_neg h3, if_neg h4, if_neg h5,
                      if_neg h6, if_neg h7, if_neg h8]
                    simp only [List.cons_append, List.nil_append]
                    rw [parseStrBody_plain c _ h1 h2, ih]

/-! Section: Well-formed values and parser fuel -/

theorem pfuel_pos (v : JSValue) : 1 ≤ pfuel v := by
  cases v <;> simp [pfuel]

theorem pfuelList_pos (l : List JSValue) : 1 ≤ pfuelList l := by
  cases l <;> simp [pfuelList]

theorem pfuelFields_pos (l : List (String × JSValue)) : 1 ≤ pfuelFields l := by
  cases l with
  | nil => simp [pfuelFields]
  | cons f fs => obtain ⟨k, x⟩ := f; simp [pfuelFields]

theorem wfJS_not_undef {v : JSValue} (h : wfJS v = true) : isUndef v = false := by
  cases v <;> simp_all [wfJS, isUndef]

theorem serVal_arr (l : List JSValue) (d : Nat) :
    serVal (.arr l) d = '[' :: itemsTail l d := by
  cases l <;> rfl

theorem serVal_obj (l : List (String × JSValue)) (d : Nat) :
    serVal (.obj l) d = '\x7b' :: fieldsTail l d := rfl

theorem isDigit_facts {c : Char} (h : isDigitChar c = true) :
    isWs c = false ∧ ¬c = ']' ∧ ¬c = '\x7b' ∧ ¬c = '[' ∧ ¬c = '"' ∧ ¬c = 'n' ∧
      ¬c = 't' ∧ ¬c = 'f' ∧ ¬c = '-' := by
  simp only [isDigitChar, Bool.and_eq_true, decide_eq_true_eq] at h
  refine ⟨?_, ?_, ?_, ?_, ?_, ?_, ?_, ?_, ?_⟩
  · simp only [isWs, Bool.or_eq_false_iff, decide_eq_false_iff_not]
    omega
  all_goals intro he; rw [he] at h; exact absurd h (by decide)

/-- The first character of a serialized well-formed value is never
whitespace and never a closing bracket. -/
theorem serHead {v : JSValue} (d : Nat) (hwf : wfJS v = true) :
    ∃ c cs, serVal v d = c :: cs ∧ isWs c = false ∧ ¬c = ']' := by
  cases v with
  | undef => simp [wfJS] at hwf
  | nan => simp [wfJS] at hwf
  | null => exact ⟨'n', _, rfl, by decide, by decide⟩
  | bool b =>
    cases b
    · exact ⟨'f', _, rfl, by decide, by decide⟩
    · exact ⟨'t', _, rfl, by decide, by decide⟩
  | str s => exact ⟨'"', _, rfl, by decide, by decide⟩
  | arr l => exact ⟨'[', _, serVal_arr l d, by decide, by decide⟩
  | obj l => exact ⟨'\x7b', _, serVal_obj l d, by decide, by decide⟩
  | num q =>
    have hden : q.den = 1 := by simpa [wfJS] using hwf
    have hser : serVal (.num q) d = intToChars q.num := by
      show jsNumToChars q = _
      rw [jsNumToChars, if_pos hden]
    by_cases hneg : q.num < 0
    · exact ⟨'-', _, by rw [hser, intToChars, if_pos hneg]; rfl, by decide, by decide⟩
    · obtain ⟨c, cs, hc, hd2⟩ := natToChars_head q.num.natAbs
      obtain ⟨hws, hbr, _⟩ := isDigit_facts hd2
      exact ⟨c, cs, by rw [hser, intToChars, if_neg hneg, List.nil_append, hc], hws, hbr⟩

/-! Section: Parser dispatch lemmas -/

theorem parseV_nullStep (fuel : Nat) (input rest : List Char)
    (h : skipWs input = nullChars ++ rest) :
    parseV (fuel + 1) input = some (.null, rest) := by
  rw [parseV.eq_def]
  dsimp only
  rw [h]
  rfl

theorem parseV_trueStep (fuel : Nat) (input rest : List Char)
    (h : skipWs input = 't' :: 'r' :: 'u' :: 'e' :: rest) :
    parseV (fuel + 1) input = some (.bool true, rest) := by
  rw [parseV.eq_def]
  dsimp only
  rw [h]
  rfl

theorem parseV_falseStep (fuel : Nat) (input rest : List Char)
    (h : skipWs input = 'f' :: 'a' :: 'l' :: 's' :: 'e' :: rest) :
    parseV (fuel + 1) input = some (.bool false, rest) := by
  rw [parseV.eq_def]
  dsimp only
  rw [h]
  rfl

theorem parseV_strStep (fuel : Nat) (input r : List Char)
    (h : skipWs input = '"' :: r) :
    parseV (fuel + 1) input =
      match parseStrBody r with
      | some (cs, r2) => some (.str (String.mk cs), r2)
      | none => none := by
  rw [parseV.eq_def]
  dsimp only
  rw [h]
  rfl

theorem parseV_objStep (fuel : Nat) (input r : List Char)
    (h : skipWs input = '\x7b' :: r) :
    parseV (fuel + 1) input =
      match parseFields fuel r with
      | some (fs, r2) => some (.obj fs, r2)
      | none => none := by
  rw [parseV.eq_def]
  dsimp only
  rw [h]
  rfl

theorem parseV_arrStep (fuel : Nat) (input r : List Char)
    (h : skipWs input = '[' :: r) :
    parseV (fuel + 1) input =
      match parseItems fuel r with
      | some (vs, r2) => some (.arr vs, r2)
      | none => none := by
  rw [parseV.eq_def]
  dsimp only
  rw [h]
  rfl

theorem parseV_negStep (fuel : Nat) (input r : List Char)
    (h : skipWs input = '-' :: r) :
    parseV (fuel + 1) input =
      match parseNat r with
      | some (n, r2) => some (.num (-(n : ℚ)), r2)
      | none => none := by
  rw [parseV.eq_def]
  dsimp only
  rw [h]
  rfl

theorem parseV_digitStep (fuel : Nat) (input r : List Char) (c : Char)
    (h : skipWs input = c :: r) (hd : isDigitChar c = true)
    (n : Nat) (r2 : List Char) (ht : takeDigits (c :: r) 0 = (n, r2)) :
    parseV (fuel + 1) input = some (.num (n : ℚ), r2) := by
  obtain ⟨_, _, h1, h2, h3, h4, h5, h6, h7⟩ := isDigit_facts hd
  rw [parseV.eq_def]
  dsimp only
  rw [h]
  dsimp only
  rw [if_neg h1, if_neg h2, if_neg h3, if_neg h4, if_neg h5, if_neg h6, if_neg h7,
    if_pos hd, ht]

theorem parseNat_natToChars (n : Nat) (rest : List Char) (hb : boundary rest = true) :
    parseNat (natToChars n ++ rest) = some (n, rest) := by
  obtain ⟨c, cs, hc, hd⟩ := natToChars_head n
  rw [hc, List.cons_append, parseNat, if_pos hd, ← List.cons_append, ← hc,
    takeDigits_natToChars_done n rest hb]

theorem parseItems_closeStep (fuel : Nat) (input r : List Char)
    (h : skipWs input = ']' :: r) :
    parseItems (fuel + 1) input = some ([], r) := by
  rw [parseItems.eq_def]
  dsimp only
  rw [h]
  rfl

theorem parseItems_commaStep (fuel : Nat) (input r r1 r2 r3 : List Char) (c : Char)
    (hin : skipWs input = c :: r) (hc : ¬c = ']') (_hws : isWs c = false)
    (v : JSValue) (vs : List JSValue)
    (hv : parseV fuel input = some (v, r1))
    (h2 : skipWs r1 = ',' :: r2)
    (hrec : parseItems fuel r2 = some (vs, r3)) :
    parseItems (fuel + 1) input = some (v :: vs, r3) := by
  rw [parseItems.eq_def]
  dsimp only
  rw [hin]
  dsimp only
  rw [if_neg hc, hv]
  dsimp only
  rw [h2]
  dsimp only
  rw [hrec]
  rfl

theorem parseItems_lastStep (fuel : Nat) (input r r1 r2 : List Char) (c : Char)
    (hin : skipWs input = c :: r) (hc : ¬c = ']') (_hws : isWs c = false)
    (v : JSValue)
    (hv : parseV fuel input = some (v, r1))
    (h2 : skipWs r1 = ']' :: r2) :
    parseItems (fuel + 1) input = some ([v], r2) := by
  rw [parseItems.eq_def]
  dsimp only
  rw [hin]
  dsimp only
  rw [if_neg hc, hv]
  dsimp only
  rw [h2]
  rfl

theorem parseFields_closeStep (fuel : Nat) (input r : List Char)
    (h : skipWs input = '\x7d' :: r) :
    parseFields (fuel + 1) input = some ([], r) := by
  rw [parseFields.eq_def]
  dsimp only
  rw [h]
  rfl

theorem parseFields_commaStep (fuel : Nat) (input r r1 r2 r3 r4 r5 : List Char)
    (kcs : List Char) (v : JSValue) (fs : List (String × JSValue))
    (hin : skipWs input = '"' :: r)
    (hk : parseStrBody r = some (kcs, r1))
    (h2 : skipWs r1 = ':' :: r2)
    (hv : parseV fuel r2 = some (v, r3))
    (h3 : skipWs r3 = ',' :: r4)
    (hrec : parseFields fuel r4 = some (fs, r5)) :
    parseFields (fuel + 1) input = some ((String.mk kcs, v) :: fs, r5) := by
  rw [parseFields.eq_def]
  dsimp only
  rw [hin]
  dsimp only
  rw [hk]
  dsimp only
  rw [h2]
  dsimp only
  rw [hv]
  dsimp only
  rw [h3]
  dsimp only
  rw [hrec]
  rfl

theorem parseFields_lastStep (fuel : Nat) (input r r1 r2 r3 r4 : List Char)
    (kcs : List Char) (v : JSValue)
    (hin : skipWs input = '"' :: r)
    (hk : parseStrBody r = some (kcs, r1))
    (h2 : skipWs r1 = ':' :: r2)
    (hv : parseV fuel r2 = some (v, r3))
    (h3 : skipWs r3 = '\x7d' :: r4) :
    parseFields (fuel + 1) input = some ([(String.mk kcs, v)], r4) := by
  rw [parseFields.eq_def]
  dsimp only
  rw [hin]
  dsimp only
  rw [hk]
  dsimp only
  rw [h2]
  dsimp only
  rw [hv]
  dsimp only
  rw [h3]
  rfl

/-! Section: Printer and parser round-trip -/

theorem boundary_comma (l : List Char) : boundary (',' :: l) = true := rfl

theorem boundary_nlIndent (d : Nat) (l : List Char) :
    boundary (nlIndent d ++ l) = true := rfl

theorem hasDefined_cons {k : String} {x : JSValue} (fs : List (String × JSValue))
    (h : isUndef x = false) : hasDefined ((k, x) :: fs) = true := by
  simp [hasDefined, h]

theorem serVal_num {q : ℚ} (d : Nat) (hden : q.den = 1) :
    serVal (.num q) d = intToChars q.num := by
  show jsNumToChars q = _
  rw [jsNumToChars, if_pos hden]

theorem cast_natAbs_eq {q : ℚ} (hden : q.den = 1) (hpos : 0 ≤ q.num) :
    ((q.num.natAbs : Nat) : ℚ) = q := by
  have h1 : (q.num.natAbs : ℤ) = q.num := Int.natAbs_of_nonneg hpos
  have h2 : ((q.num : ℤ) : ℚ) = q := (Rat.den_eq_one_iff q).mp hden
  calc ((q.num.natAbs : Nat) : ℚ) = ((q.num.natAbs : ℤ) : ℚ) :=
      (Int.cast_natCast q.num.natAbs).symm
    _ = ((q.num : ℤ) : ℚ) := by rw [h1]
    _ = q := h2

theorem neg_cast_natAbs_eq {q : ℚ} (hden : q.den = 1) (hneg : q.num < 0) :
    (-(q.num.natAbs : ℚ)) = q := by
  have h1 : (q.num.natAbs : ℤ) = -q.num := by
    rw [← Int.natAbs_neg]
    exact Int.natAbs_of_nonneg (by omega)
  have h2 : ((q.num : ℤ) : ℚ) = q := (Rat.den_eq_one_iff q).mp hden
  calc -((q.num.natAbs : Nat) : ℚ) = -(((q.num.natAbs : ℤ) : ℚ)) :=
      congrArg Neg.neg (Int.cast_natCast q.num.natAbs).symm
    _ = -(((-q.num : ℤ) : ℚ)) := by rw [h1]
    _ = ((q.num : ℤ) : ℚ) := by rw [Int.cast_neg, neg_neg]
    _ = q := h2

theorem parse_ser (fuel : Nat) :
    (∀ v d input rest, wfJS v = true → pfuel v ≤ fuel → boundary rest = true →
      skipWs input = serVal v d ++ rest → parseV fuel input = some (v, rest)) ∧
    (∀ l d rest, wfList l = true → pfuelList l ≤ fuel →
      parseItems fuel (itemsTail l d ++ rest) = some (l, rest)) ∧
    (∀ l d rest, wfFields l = true → pfuelFields l ≤ fuel →
      parseFields fuel (fieldsTail l d ++ rest) = some (l, rest)) := by
  induction fuel with
  | zero =>
    refine ⟨?_, ?_, ?_⟩
    · intro v _ _ _ _ hf _ _
      exact absurd hf (by have := pfuel_pos v; omega)
    · intro l _ _ _ hf
      exact absurd hf (by have := pfuelList_pos l; omega)
    · intro l _ _ _ hf
      exact absurd hf (by have := pfuelFields_pos l; omega)
  | succ fuel ih =>
    obtain ⟨ihV, ihI, ihF⟩ := ih
    refine ⟨?_, ?_, ?_⟩
    · intro v d input rest hwf hfuel hb hin
      cases v with
      | undef => simp [wfJS] at hwf
      | nan => simp [wfJS] at hwf
      | null => exact parseV_nullStep fuel input rest hin
      | bool b =>
        cases b
        · exact parseV_falseStep fuel input rest hin
        · exact parseV_trueStep fuel input rest hin
      | str s =>
        rw [parseV_strStep fuel input (escChars s.data ++ ('"' :: rest)) (by
          rw [hin]; show serVal (.str s) d ++ rest = _
          simp [serVal, List.append_assoc])]
        rw [parseStrBody_escChars s.data rest]
      | num q =>
        have hden : q.den = 1 := by simpa [wfJS] using hwf
        rw [serVal_num d hden, intToChars] at hin
        by_cases hneg : q.num < 0
        · rw [if_pos hneg] at hin
          simp only [List.cons_append, List.singleton_append, List.nil_append] at hin
          rw [parseV_negStep fuel input (natToChars q.num.natAbs ++ rest) hin]
          rw [parseNat_natToChars q.num.natAbs rest hb]
          dsimp only
          rw [neg_cast_natAbs_eq hden hneg]
        · rw [if_neg hneg, List.nil_append] at hin
          obtain ⟨c, cs, hc, hd2⟩ := natToChars_head q.num.natAbs
          have hin2 : skipWs input = c :: (cs ++ rest) := by
            rw [hin, hc]; rfl
          have ht : takeDigits (c :: (cs ++ rest)) 0 = (q.num.natAbs, rest) := by
            have := takeDigits_natToChars_done q.num.natAbs rest hb
            rwa [hc, List.cons_append] at this
          rw [parseV_digitStep fuel input (cs ++ rest) c hin2 hd2 q.num.natAbs rest ht]
          rw [cast_natAbs_eq hden (by omega)]
      | arr l =>
        have hwl : wfList l = true := by simpa [wfJS] using hwf
        rw [serVal_arr] at hin
        rw [parseV_arrStep fuel input (itemsTail l d ++ rest) (by rw [hin]; rfl)]
        rw [ihI l d rest hwl (by simp only [pfuel] at hfuel; omega)]
      | obj l =>
        have hwl : wfFields l = true := by simpa [wfJS] using hwf
        rw [serVal_obj] at hin
        rw [parseV_objStep fuel input (fieldsTail l d ++ rest) (by rw [hin]; rfl)]
        rw [ihF l d rest hwl (by simp only [pfuel] at hfuel; omega)]
    · intro l d rest hwf hfuel
      cases l with
      | nil =>
        exact parseItems_closeStep fuel _ rest (skipWs_cons_of_not_ws rest (by decide))
      | cons x xs =>
        have hx : wfJS x = true := by simp [wfList] at hwf; exact hwf.1
        have hxs : wfList xs = true := by simp [wfList] at hwf; exact hwf.2
        have hnu : isUndef x = false := wfJS_not_undef hx
        obtain ⟨c, cs, hA, hws, hbr⟩ := serHead (d+1) hx
        cases xs with
        | nil =>
          have hfx : pfuel x ≤ fuel := by
            simp only [pfuelList] at hfuel
            have := pfuelList_pos ([] : List JSValue)
            omega
          have hser : serItems [x] (d+1) = serVal x (d+1) := by
            show (if isUndef x then nullChars else serVal x (d+1)) = _
            rw [hnu]
            rfl
          have hform : itemsTail [x] d ++ rest =
              nlIndent (d+1) ++ (serVal x (d+1) ++ (nlIndent d ++ (']' :: rest))) := by
            show (nlIndent (d+1) ++ serItems [x] (d+1) ++ nlIndent d ++ [']']) ++ rest = _
            rw [hser]
            simp [List.append_assoc]
          have hskip : skipWs (itemsTail [x] d ++ rest) =
              serVal x (d+1) ++ (nlIndent d ++ (']' :: rest)) := by
            rw [hform, skipWs_nlIndent, hA, List.cons_append]
            exact skipWs_cons_of_not_ws _ hws
          have hv : parseV fuel (itemsTail [x] d ++ rest) =
              some (x, nlIndent d ++ (']' :: rest)) :=
            ihV x (d+1) _ _ hx hfx (boundary_nlIndent d _) hskip
          have h2 : skipWs (nlIndent d ++ (']' :: rest)) = ']' :: rest := by
            rw [skipWs_nlIndent]
            exact skipWs_cons_of_not_ws rest (by decide)
          exact parseItems_lastStep fuel _ _ _ _ c
            (by rw [hskip, hA, List.cons_append]) hbr hws x hv h2
        | cons y ys =>
          have hfx : pfuel x ≤ fuel := by
            simp only [pfuelList] at hfuel
            have := pfuelList_pos (y :: ys)
            omega
          have hfxs : pfuelList (y :: ys) ≤ fuel := by
            have hx1 := pfuel_pos x
            simp only [pfuelList] at hfuel ⊢
            omega
          have hser : serItems (x :: y :: ys) (d+1) =
              serVal x (d+1) ++ ((',' :: nlIndent (d+1)) ++ serItems (y :: ys) (d+1)) := by
            show (if isUndef x then nullChars else serVal x (d+1)) ++
              (',' :: nlIndent (d+1)) ++ serItems (y :: ys) (d+1) = _
            rw [hnu]
            simp [List.append_assoc]
          have hform : itemsTail (x :: y :: ys) d ++ rest =
              nlIndent (d+1) ++ (serVal x (d+1) ++
                (',' :: (itemsTail (y :: ys) d ++ rest))) := by
            show (nlIndent (d+1) ++ serItems (x :: y :: ys) (d+1) ++ nlIndent d ++ [']'])
              ++ rest = _
            rw [hser]
            show _ = nlIndent (d+1) ++ (serVal x (d+1) ++ (',' ::
              ((nlIndent (d+1) ++ serItems (y :: ys) (d+1) ++ nlIndent d ++ [']']) ++ rest)))
            simp [List.append_assoc]
          have hskip : skipWs (itemsTail (x :: y :: ys) d ++ rest) =
              serVal x (d+1) ++ (',' :: (itemsTail (y :: ys) d ++ rest)) := by
            rw [hform, skipWs_nlIndent, hA, List.cons_append]
            exact skipWs_cons_of_not_ws _ hws
          have hv : parseV fuel (itemsTail (x :: y :: ys) d ++ rest) =
              some (x, ',' :: (itemsTail (y :: ys) d ++ rest)) :=
            ihV x (d+1) _ _ hx hfx (boundary_comma _) hskip
          have h2 : skipWs (',' :: (itemsTail (y :: ys) d ++ rest)) =
              ',' :: (itemsTail (y :: ys) d ++ rest) :=
            skipWs_cons_of_not_ws _ (by decide)
          have hrec : parseItems fuel (itemsTail (y :: ys) d ++ rest) =
              some (y :: ys, rest) := ihI (y :: ys) d rest hxs hfxs
          exact parseItems_commaStep fuel _ _ _ _ _ c
            (by rw [hskip, hA, List.cons_append]) hbr hws x (y :: ys) hv h2 hrec
    · intro l d rest hwf hfuel
      cases l with
      | nil =>
        have hform : fieldsTail ([] : List (String × JSValue)) d = ['\x7d'] := by
          simp [fieldsTail, hasDefined]
        rw [hform]
        exact parseFields_closeStep fuel _ rest (skipWs_cons_of_not_ws rest (by decide))
      | cons f fs =>
        obtain ⟨k, x⟩ := f
        have hx : wfJS x = true := by simp [wfFields] at hwf; exact hwf.1
        have hfs : wfFields fs = true := by simp [wfFields] at hwf; exact hwf.2
        have hnu : isUndef x = false := wfJS_not_undef hx
        obtain ⟨c, cs, hA, hws, hbr⟩ := serHead (d+1) hx
        have hfx : pfuel x ≤ fuel := by
          simp only [pfuelFields] at hfuel
          have := pfuelFields_pos fs
          omega
        cases fs with
        | nil =>
          have hform : fieldsTail [(k, x)] d ++ rest =
              nlIndent (d+1) ++ ('"' :: (escChars k.data ++
                ('"' :: (':' :: (' ' :: (serVal x (d+1) ++
                  (nlIndent d ++ ('\x7d' :: rest)))))))) := by
            have hser : serFields [(k, x)] (d+1) =
                ('"' :: (escChars k.data ++ ['"'])) ++ (':' :: ' ' :: serVal x (d+1)) := by
              show (if isUndef x then serFields [] (d+1)
                else ('"' :: (escChars k.data ++ ['"'])) ++ (':' :: ' ' :: serVal x (d+1)) ++
                  (if hasDefined [] then (',' :: nlIndent (d+1)) ++ serFields [] (d+1)
                   else [])) = _
              rw [hnu]
              simp [hasDefined]
            rw [fieldsTail, if_pos (hasDefined_cons [] hnu), hser]
            simp [List.append_assoc]
          have hskip : skipWs (fieldsTail [(k, x)] d ++ rest) =
              '"' :: (escChars k.data ++ ('"' :: (':' :: (' ' :: (serVal x (d+1) ++
                (nlIndent d ++ ('\x7d' :: rest))))))) := by
            rw [hform, skipWs_nlIndent]
            exact skipWs_cons_of_not_ws _ (by decide)
          have hk2 : parseStrBody (escChars k.data ++ ('"' :: (':' :: (' ' ::
              (serVal x (d+1) ++ (nlIndent d ++ ('\x7d' :: rest))))))) =
              some (k.data, ':' :: (' ' :: (serVal x (d+1) ++
                (nlIndent d ++ ('\x7d' :: rest))))) :=
            parseStrBody_escChars k.data _
          have h2 : skipWs (':' :: (' ' :: (serVal x (d+1) ++
              (nlIndent d ++ ('\x7d' :: rest))))) = ':' :: (' ' :: (serVal x (d+1) ++
              (nlIndent d ++ ('\x7d' :: rest)))) :=
            skipWs_cons_of_not_ws _ (by decide)
          have hskip2 : skipWs (' ' :: (serVal x (d+1) ++
              (nlIndent d ++ ('\x7d' :: rest)))) =
              serVal x (d+1) ++ (nlIndent d ++ ('\x7d' :: rest)) := by
            show skipWs ([' '] ++ (serVal x (d+1) ++ (nlIndent d ++ ('\x7d' :: rest)))) = _
            rw [skipWs_append_ws _ (by intro a ha; simp at ha; rw [ha]; rfl), hA,
              List.cons_append]
            exact skipWs_cons_of_not_ws _ hws
          have hv : parseV fuel (' ' :: (serVal x (d+1) ++
              (nlIndent d ++ ('\x7d' :: rest)))) =
              some (x, nlIndent d ++ ('\x7d' :: rest)) :=
            ihV x (d+1) _ _ hx hfx (boundary_nlIndent d _) hskip2
          have h3 : skipWs (nlIndent d ++ ('\x7d' :: rest)) = '\x7d' :: rest := by
            rw [skipWs_nlIndent]
            exact skipWs_cons_of_not_ws rest (by decide)
          have := parseFields_lastStep fuel (fieldsTail [(k, x)] d ++ rest) _ _ _ _ _
            k.data x hskip hk2 h2 hv h3
          rwa [show (String.mk k.data, x) = (k, x) from rfl] at this
        | cons f2 fs2 =>
          have hfs2 : pfuelFields (f2 :: fs2) ≤ fuel := by
            have hx1 := pfuel_pos x
            obtain ⟨k2, x2⟩ := f2
            simp only [pfuelFields] at hfuel ⊢
            omega
          have hnu2 : isUndef (f2.2) = false := by
            obtain ⟨k2, x2⟩ := f2
            have : wfJS x2 = true := by simp [wfFields] at hfs; exact hfs.1
            exact wfJS_not_undef this
          have hdef2 : hasDefined (f2 :: fs2) = true := by
            obtain ⟨k2, x2⟩ := f2
            exact hasDefined_cons fs2 hnu2
          have hform : fieldsTail ((k, x) :: f2 :: fs2) d ++ rest =
              nlIndent (d+1) ++ ('"' :: (escChars k.data ++
                ('"' :: (':' :: (' ' :: (serVal x (d+1) ++
                  (',' :: (fieldsTail (f2 :: fs2) d ++ rest)))))))) := by
            have hser : serFields ((k, x) :: f2 :: fs2) (d+1) =
                ('"' :: (escChars k.data ++ ['"'])) ++ (':' :: ' ' :: serVal x (d+1)) ++
                  ((',' :: nlIndent (d+1)) ++ serFields (f2 :: fs2) (d+1)) := by
              show (if isUndef x then serFields (f2 :: fs2) (d+1)
                else ('"' :: (escChars k.data ++ ['"'])) ++ (':' :: ' ' :: serVal x (d+1)) ++
                  (if hasDefined (f2 :: fs2) then
                    (',' :: nlIndent (d+1)) ++ serFields (f2 :: fs2) (d+1)
                   else [])) = _
              rw [hnu, hdef2]
              rfl
            rw [fieldsTail, if_pos (hasDefined_cons _ hnu), hser]
            rw [fieldsTail, if_pos hdef2]
            simp [List.append_assoc]
          have hskip : skipWs (fieldsTail ((k, x) :: f2 :: fs2) d ++ rest) =
              '"' :: (escChars k.data ++ ('"' :: (':' :: (' ' :: (serVal x (d+1) ++
                (',' :: (fieldsTail (f2 :: fs2) d ++ rest))))))) := by
            rw [hform, skipWs_nlIndent]
            exact skipWs_cons_of_not_ws _ (by decide)
          have hk2 : parseStrBody (escChars k.data ++ ('"' :: (':' :: (' ' ::
              (serVal x (d+1) ++ (',' :: (fieldsTail (f2 :: fs2) d ++ rest))))))) =
              some (k.data, ':' :: (' ' :: (serVal x (d+1) ++
                (',' :: (fieldsTail (f2 :: fs2) d ++ rest))))) :=
            parseStrBody_escChars k.data _
          have h2 : skipWs (':' :: (' ' :: (serVal x (d+1) ++
              (',' :: (fieldsTail (f2 :: fs2) d ++ rest))))) =
              ':' :: (' ' :: (serVal x (d+1) ++
                (',' :: (fieldsTail (f2 :: fs2) d ++ rest)))) :=
            skipWs_cons_of_not_ws _ (by decide)
          have hskip2 : skipWs (' ' :: (serVal x (d+1) ++
              (',' :: (fieldsTail (f2 :: fs2) d ++ rest)))) =
              serVal x (d+1) ++ (',' :: (fieldsTail (f2 :: fs2) d ++ rest)) := by
            show skipWs ([' '] ++ (serVal x (d+1) ++
              (',' :: (fieldsTail (f2 :: fs2) d ++ rest)))) = _
            rw [skipWs_append_ws _ (by intro a ha; simp at ha; rw [ha]; rfl), hA,
              List.cons_append]
            exact skipWs_cons_of_not_ws _ hws
          have hv : parseV fuel (' ' :: (serVal x (d+1) ++
              (',' :: (fieldsTail (f2 :: fs2) d ++ rest)))) =
              some (x, ',' :: (fieldsTail (f2 :: fs2) d ++ rest)) :=
            ihV x (d+1) _ _ hx hfx (boundary_comma _) hskip2
          have h3 : skipWs (',' :: (fieldsTail (f2 :: fs2) d ++ rest)) =
              ',' :: (fieldsTail (f2 :: fs2) d ++ rest) :=
            skipWs_cons_of_not_ws _ (by decide)
          have hrec : parseFields fuel (fieldsTail (f2 :: fs2) d ++ rest) =
              some (f2 :: fs2, rest) := ihF (f2 :: fs2) d rest hfs hfs2
          have := parseFields_commaStep fuel (fieldsTail ((k, x) :: f2 :: fs2) d ++ rest)
            _ _ _ _ _ _ k.data x (f2 :: fs2) hskip hk2 h2 hv h3 hrec
          rwa [show (String.mk k.data, x) = (k, x) from rfl] at this

theorem serLen_ge (n : Nat) :
    (∀ v d, pfuel v ≤ n → wfJS v = true → pfuel v ≤ (serVal v d).length) ∧
    (∀ l d, pfuelList l ≤ n → wfList l = true →
      pfuelList l ≤ (serItems l d).length + 2) ∧
    (∀ l d, pfuelFields l ≤ n → wfFields l = true →
      pfuelFields l ≤ (serFields l d).length + 2) := by
  induction n with
  | zero =>
    refine ⟨?_, ?_, ?_⟩
    · intro v _ hf _
      exact absurd hf (by have := pfuel_pos v; omega)
    · intro l _ hf _
      exact absurd hf (by have := pfuelList_pos l; omega)
    · intro l _ hf _
      exact absurd hf (by have := pfuelFields_pos l; omega)
  | succ n ih =>
    obtain ⟨ihV, ihI, ihF⟩ := ih
    refine ⟨?_, ?_, ?_⟩
    · intro v d hfuel hwf
      cases v with
      | undef => simp [wfJS] at hwf
      | nan => simp [pfuel, serVal, nullChars]
      | null => simp [pfuel, serVal, nullChars]
      | bool b => cases b <;> simp [pfuel, serVal]
      | str s => simp [pfuel, serVal]
      | num q =>
        have hden : q.den = 1 := by simpa [wfJS] using hwf
        rw [serVal_num d hden, intToChars]
        obtain ⟨c, cs, hc, _⟩ := natToChars_head q.num.natAbs
        by_cases hneg : q.num < 0 <;>
          simp [hneg, hc, pfuel]
      | arr l =>
        have hwl : wfList l = true := by simpa [wfJS] using hwf
        rw [serVal_arr]
        cases l with
        | nil => simp [pfuel, pfuelList, itemsTail]
        | cons x xs =>
          have hb : pfuelList (x :: xs) ≤ n := by
            simp only [pfuel] at hfuel; omega
          have := ihI (x :: xs) (d+1) hb hwl
          simp only [pfuel, itemsTail, List.length_cons, List.length_append,
            nlIndent, indentChars, List.length_replicate, List.length_singleton]
          omega
      | obj l =>
        have hwl : wfFields l = true := by simpa [wfJS] using hwf
        rw [serVal_obj]
        cases l with
        | nil => simp [pfuel, pfuelFields, fieldsTail, hasDefined]
        | cons f fs =>
          obtain ⟨k, x⟩ := f
          have hnu : isUndef x = false :=
            wfJS_not_undef (by simp [wfFields] at hwl; exact hwl.1)
          have hb : pfuelFields ((k, x) :: fs) ≤ n := by
            simp only [pfuel] at hfuel; omega
          have := ihF ((k, x) :: fs) (d+1) hb hwl
          rw [fieldsTail, if_pos (hasDefined_cons _ hnu)]
          simp only [pfuel, List.length_cons, List.length_append,
            nlIndent, indentChars, List.length_replicate, List.length_singleton]
          omega
    · intro l d hfuel hwf
      cases l with
      | nil => simp [pfuelList, serItems]
      | cons x xs =>
        have hx : wfJS x = true := by simp [wfList] at hwf; exact hwf.1
        have hxs : wfList xs = true := by simp [wfList] at hwf; exact hwf.2
        have hnu : isUndef x = false := wfJS_not_undef hx
        cases xs with
        | nil =>
          have hser : serItems [x] d = serVal x d := by
            show (if isUndef x then nullChars else serVal x d) = _
            rw [hnu]
            rfl
          have hfx : pfuel x ≤ n := by
            simp only [pfuelList] at hfuel
            have := pfuelList_pos ([] : List JSValue)
            omega
          have := ihV x d hfx hx
          rw [hser]
          simp only [pfuelList]
          omega
        | cons y ys =>
          have hser : serItems (x :: y :: ys) d =
              serVal x d ++ ((',' :: nlIndent d) ++ serItems (y :: ys) d) := by
            show (if isUndef x then nullChars else serVal x d) ++
              (',' :: nlIndent d) ++ serItems (y :: ys) d = _
            rw [hnu]
            simp [List.append_assoc]
          have hfx : pfuel x ≤ n := by
            simp only [pfuelList] at hfuel
            have := pfuelList_pos (y :: ys)
            omega
          have hfxs : pfuelList (y :: ys) ≤ n := by
            have := pfuel_pos x
            simp only [pfuelList] at hfuel ⊢
            omega
          have h1 := ihV x d hfx hx
          have h2 := ihI (y :: ys) d hfxs hxs
          rw [hser]
          simp only [pfuelList, List.length_append, List.length_cons,
            nlIndent, indentChars, List.length_replicate]
          simp only [pfuelList] at h2 ⊢
          omega
    · intro l d hfuel hwf
      cases l with
      | nil => simp [pfuelFields, serFields]
      | cons f fs =>
        obtain ⟨k, x⟩ := f
        have hx : wfJS x = true := by simp [wfFields] at hwf; exact hwf.1
        have hfs : wfFields fs = true := by simp [wfFields] at hwf; exact hwf.2
        have hnu : isUndef x = false := wfJS_not_undef hx
        have hfx : pfuel x ≤ n := by
          simp only [pfuelFields] at hfuel
          have := pfuelFields_pos fs
          omega
        have h1 := ihV x d hfx hx
        cases fs with
        | nil =>
          have hser : serFields [(k, x)] d =
              ('"' :: (escChars k.data ++ ['"'])) ++ (':' :: ' ' :: serVal x d) := by
            show (if isUndef x then serFields [] d
              else ('"' :: (escChars k.data ++ ['"'])) ++ (':' :: ' ' :: serVal x d) ++
                (if hasDefined [] then (',' :: nlIndent d) ++ serFields [] d
                 else [])) = _
            rw [hnu]
            simp [hasDefined]
          rw [hser]
          simp only [pfuelFields, List.length_append, List.length_cons]
          omega
        | cons f2 fs2 =>
          have hnu2 : isUndef (f2.2) = false := by
            obtain ⟨k2, x2⟩ := f2
            have : wfJS x2 = true := by simp [wfFields] at hfs; exact hfs.1
            exact wfJS_not_undef this
          have hdef2 : hasDefined (f2 :: fs2) = true := by
            obtain ⟨k2, x2⟩ := f2
            exact hasDefined_cons fs2 hnu2
          have hser : serFields ((k, x) :: f2 :: fs2) d =
              ('"' :: (escChars k.data ++ ['"'])) ++ (':' :: ' ' :: serVal x d) ++
                ((',' :: nlIndent d) ++ serFields (f2 :: fs2) d) := by
            show (if isUndef x then serFields (f2 :: fs2) d
              else ('"' :: (escChars k.data ++ ['"'])) ++ (':' :: ' ' :: serVal x d) ++
                (if hasDefined (f2 :: fs2) then
                  (',' :: nlIndent d) ++ serFields (f2 :: fs2) d
                 else [])) = _
            rw [hnu, hdef2]
            rfl
          have hffs : pfuelFields (f2 :: fs2) ≤ n := by
            have := pfuel_pos x
            obtain ⟨k2, x2⟩ := f2
            simp only [pfuelFields] at hfuel ⊢
            omega
          have h2 := ihF (f2 :: fs2) d hffs hfs
          rw [hser]
          obtain ⟨k2, x2⟩ := f2
          simp only [pfuelFields, List.length_append, List.length_cons,
            nlIndent, indentChars, List.length_replicate] at h2 ⊢
          omega

theorem pfuel_le_length {v : JSValue} (hwf : wfJS v = true) (d : Nat) :
    pfuel v ≤ (serVal v d).length :=
  (serLen_ge (pfuel v)).1 v d le_rfl hwf

/-- Round-trip: JSON-decoding the pretty-printed serialization of a
well-formed value recovers exactly that value. -/
theorem parseJson_stringifyPretty2 {v : JSValue} (hwf : wfJS v = true) :
    parseJson (stringifyPretty2 v) = some v := by
  obtain ⟨c, cs, hA, hws, _⟩ := serHead 0 hwf
  have hskip : skipWs (serVal v 0) = serVal v 0 ++ [] := by
    rw [List.append_nil, hA]
    exact skipWs_cons_of_not_ws _ hws
  have hparse : parseV (stringifyPretty2 v).length (serVal v 0) = some (v, []) :=
    (parse_ser _).1 v 0 (serVal v 0) [] hwf
      (le_trans (pfuel_le_length hwf 0) (le_of_eq rfl)) rfl hskip
  show (match parseV (stringifyPretty2 v).length (stringifyPretty2 v).data with
    | some (w, rest) => if skipWs rest = [] then some w else none
    | none => none) = some v
  rw [show (stringifyPretty2 v).data = serVal v 0 from rfl, hparse]
  rfl

/-! Section: Builder behavior lemmas -/

theorem jsonResponse_statusBad (d st m : JSValue) (h : jsStatusBad st = true) :
    jsonResponse d st m = .error statusErrorMsg := by
  simp only [jsStatusBad] at h
  unfold jsonResponse
  rw [if_pos h]

theorem jsonResponse_messageBad (d st m : JSValue) (h : jsStatusBad st = false)
    (hm : typeofIsString m = false) :
    jsonResponse d st m = .error messageErrorMsg := by
  simp only [jsStatusBad] at h
  unfold jsonResponse
  rw [if_neg (by simp [h]), if_pos (by simp [hm])]

theorem jsonResponse_ok (d st m : JSValue) (h : jsStatusBad st = false)
    (hm : typeofIsString m = true) :
    jsonResponse d st m = .ok (stringifyPretty2 (jsEnvelope d st m)) := by
  simp only [jsStatusBad] at h
  unfold jsonResponse
  rw [if_neg (by simp [h]), if_neg (by simp [hm])]

theorem jsStatusBad_intCast_false {s : ℤ} (h1 : 100 ≤ s) (h2 : s ≤ 599) :
    jsStatusBad (.num (s : ℚ)) = false := by
  simp only [jsStatusBad, typeofIsNumber, jsLt, jsGt, Bool.not_true,
    Bool.false_or, Bool.or_eq_false_iff, decide_eq_false_iff_not, not_lt, gt_iff_lt]
  constructor
  · exact_mod_cast h1
  · exact_mod_cast h2

theorem PHP.responseStatusBad (d st m : PHP.PHPValue)
    (h : PHP.phpStatusBad st = true) :
    PHP.jsonResponse d st m = .error statusErrorMsg := by
  simp only [PHP.phpStatusBad] at h
  unfold PHP.jsonResponse
  rw [if_pos h]

theorem PHP.responseMessageBad (d st m : PHP.PHPValue)
    (h : PHP.phpStatusBad st = false) (hm : PHP.is_string m = false) :
    PHP.jsonResponse d st m = .error messageErrorMsg := by
  simp only [PHP.phpStatusBad] at h
  unfold PHP.jsonResponse
  rw [if_neg (by simp [h]), if_pos (by simp [hm])]

theorem PHP.responseDataBad (d st m : PHP.PHPValue)
    (h : PHP.phpStatusBad st = false) (hm : PHP.is_string m = true)
    (hnull : PHP.isNull d = false) (harr : PHP.is_array d = false) :
    PHP.jsonResponse d st m = .error PHP.dataErrorMsg := by
  simp only [PHP.phpStatusBad] at h
  unfold PHP.jsonResponse
  rw [if_neg (by simp [h]), if_neg (by simp [hm])]
  simp only [hnull, Bool.false_eq_true, if_false]
  rw [if_pos (by simp [harr])]

theorem PHP.responseOk (d st m : PHP.PHPValue)
    (h : PHP.phpStatusBad st = false) (hm : PHP.is_string m = true)
    (hd : PHP.isNull d = true ∨ PHP.is_array d = true) :
    PHP.jsonResponse d st m =
      .ok (PHP.json_encodePretty (.arr [(.s statusKey, st), (.s messageKey, m),
        (.s dataKey, if PHP.isNull d then .arr [] else d)])) := by
  simp only [PHP.phpStatusBad] at h
  unfold PHP.jsonResponse
  rw [if_neg (by simp [h]), if_neg (by simp [hm])]
  rcases hd with hd | hd
  · rw [hd]
    simp only [if_true]
    rw [if_neg (by simp [PHP.is_array])]
  · have hnull : PHP.isNull d = false := by
      cases d <;> simp_all [PHP.isNull, PHP.is_array]
    simp only [hnull, Bool.false_eq_true, if_false]
    rw [if_neg (by simp [hd])]

theorem PHP.phpStatusBad_int_false {s : ℤ} (h1 : 100 ≤ s) (h2 : s ≤ 599) :
    PHP.phpStatusBad (.int s) = false := by
  simp only [PHP.phpStatusBad, PHP.is_int, PHP.phpLt, PHP.phpGt, Bool.not_true,
    Bool.false_or, Bool.or_eq_false_iff, decide_eq_false_iff_not, not_lt, gt_iff_lt]
  omega

theorem GoLib.JsonResponse_ok (d : GoLib.GoValue) (s : ℤ) (m : String)
    (h1 : 100 ≤ s) (h2 : s ≤ 599) :
    GoLib.JsonResponse d s m = .ok (GoLib.marshalIndentResponse s m d) := by
  unfold GoLib.JsonResponse
  rw [if_neg (by simp; omega)]

theorem wfJS_jsEnvelope {d : JSValue} (s : ℤ) (m : String) (hd : wfJS d = true) :
    wfJS (jsEnvelope d (.num (s : ℚ)) (.str m)) = true := by
  show wfFields [(statusKey, .num (s : ℚ)), (messageKey, .str m),
    (dataKey, if jsTruthy d then d else .obj [])] = true
  have h1 : wfJS (.num (s : ℚ)) = true := by
    simp [wfJS, Rat.den_intCast]
  have h3 : wfJS (if jsTruthy d then d else .obj []) = true := by
    by_cases ht : jsTruthy d = true
    · rw [if_pos ht]; exact hd
    · rw [if_neg ht]; rfl
  simp [wfFields, wfJS, h1, h3, Rat.den_intCast]

/-! Section: Stripping lemmas -/

theorem isUndef_stripJS (v : JSValue) : isUndef (stripJS v) = false := by
  cases v <;> rfl

theorem hasDefined_stripFields (l : List (String × JSValue)) :
    hasDefined (stripFields l) = hasDefined l := by
  induction l with
  | nil => rfl
  | cons f fs ih =>
    obtain ⟨k, x⟩ := f
    by_cases hu : isUndef x = true
    · have hx : stripFields ((k, x) :: fs) = stripFields fs := by
        rw [stripFields, if_pos hu]
      rw [hx, ih]
      simp [hasDefined, hu]
    · have hx : stripFields ((k, x) :: fs) = (k, stripJS x) :: stripFields fs := by
        rw [stripFields, if_neg hu]
      have hxf : isUndef x = false := by simpa using hu
      rw [hx]
      simp [hasDefined, isUndef_stripJS, hxf]

theorem serVal_stripJS (n : Nat) :
    (∀ v d, pfuel v ≤ n → isUndef v = false →
      serVal (stripJS v) d = serVal v d) ∧
    (∀ l d, pfuelList l ≤ n → serItems (stripList l) d = serItems l d) ∧
    (∀ l d, pfuelFields l ≤ n → serFields (stripFields l) d = serFields l d) := by
  induction n with
  | zero =>
    refine ⟨?_, ?_, ?_⟩
    · intro v _ hf _
      exact absurd hf (by have := pfuel_pos v; omega)
    · intro l _ hf
      exact absurd hf (by have := pfuelList_pos l; omega)
    · intro l _ hf
      exact absurd hf (by have := pfuelFields_pos l; omega)
  | succ n ih =>
    obtain ⟨ihV, ihI, ihF⟩ := ih
    refine ⟨?_, ?_, ?_⟩
    · intro v d hfuel hnu
      cases v with
      | undef => simp [isUndef] at hnu
      | null => rfl
      | nan => rfl
      | bool b => rfl
      | num q => rfl
      | str s => rfl
      | arr l =>
        show serVal (.arr (stripList l)) d = _
        cases l with
        | nil => rfl
        | cons x xs =>
          have hl : pfuelList (x :: xs) ≤ n := by
            simp only [pfuel] at hfuel; omega
          rw [show stripList (x :: xs) = stripJS x :: stripList xs from rfl,
            serVal_arr, serVal_arr]
          show '[' :: itemsTail (stripJS x :: stripList xs) d = _
          rw [show itemsTail (stripJS x :: stripList xs) d =
            nlIndent (d+1) ++ serItems (stripJS x :: stripList xs) (d+1) ++
              nlIndent d ++ [']'] from rfl]
          rw [show serItems (stripJS x :: stripList xs) (d+1) =
            serItems (stripList (x :: xs)) (d+1) from rfl]
          rw [ihI (x :: xs) (d+1) hl]
          rfl
      | obj l =>
        show serVal (.obj (stripFields l)) d = _
        have hl : pfuelFields l ≤ n := by
          simp only [pfuel] at hfuel; omega
        rw [serVal_obj, serVal_obj, fieldsTail, fieldsTail, hasDefined_stripFields,
          ihF l (d+1) hl]
    · intro l d hfuel
      cases l with
      | nil => rfl
      | cons x xs =>
        have hx : pfuel x ≤ n := by
          have := pfuelList_pos xs
          simp only [pfuelList] at hfuel; omega
        have hxs : pfuelList xs ≤ n := by
          have := pfuel_pos x
          simp only [pfuelList] at hfuel; omega
        have hitem : (if isUndef (stripJS x) then nullChars
            else serVal (stripJS x) d) =
            (if isUndef x then nullChars else serVal x d) := by
          rw [isUndef_stripJS]
          by_cases hu : isUndef x = true
          · cases x <;> first
              | rfl
              | simp_all [isUndef]
          · rw [if_neg hu, if_neg (by simp)]
            exact ihV x d hx (by simpa using hu)
        cases xs with
        | nil =>
          show (if isUndef (stripJS x) then nullChars else serVal (stripJS x) d) = _
          rw [hitem]
          rfl
        | cons y ys =>
          show (if isUndef (stripJS x) then nullChars else serVal (stripJS x) d) ++
            (',' :: nlIndent d) ++ serItems (stripList (y :: ys)) d = _
          rw [hitem, ihI (y :: ys) d hxs]
          rfl
    · intro l d hfuel
      cases l with
      | nil => rfl
      | cons f fs =>
        obtain ⟨k, x⟩ := f
        have hx : pfuel x ≤ n := by
          have := pfuelFields_pos fs
          simp only [pfuelFields] at hfuel; omega
        have hfs : pfuelFields fs ≤ n := by
          have := pfuel_pos x
          simp only [pfuelFields] at hfuel; omega
        by_cases hu : isUndef x = true
        · rw [show stripFields ((k, x) :: fs) = stripFields fs from by
            rw [stripFields, if_pos hu]]
          rw [ihF fs d hfs]
          rw [show serFields ((k, x) :: fs) d = serFields fs d from by
            rw [serFields, if_pos hu]]
        · rw [show stripFields ((k, x) :: fs) = (k, stripJS x) :: stripFields fs from by
            rw [stripFields, if_neg hu]]
          rw [show serFields ((k, stripJS x) :: stripFields fs) d =
            ('"' :: (escChars k.data ++ ['"'])) ++ (':' :: ' ' :: serVal (stripJS x) d) ++
              (if hasDefined (stripFields fs) then
                (',' :: nlIndent d) ++ serFields (stripFields fs) d else []) from by
            rw [serFields, if_neg (by simp [isUndef_stripJS])]]
          rw [show serFields ((k, x) :: fs) d =
            ('"' :: (escChars k.data ++ ['"'])) ++ (':' :: ' ' :: serVal x d) ++
              (if hasDefined fs then (',' :: nlIndent d) ++ serFields fs d else []) from by
            rw [serFields, if_neg hu]]
          rw [ihV x d hx (by simpa using hu), hasDefined_stripFields, ihF fs d hfs]

theorem wfJS_stripJS (n : Nat) :
    (∀ v, pfuel v ≤ n → numsOk v = true → wfJS (stripJS v) = true) ∧
    (∀ l, pfuelList l ≤ n → numsOkList l = true → wfList (stripList l) = true) ∧
    (∀ l, pfuelFields l ≤ n → numsOkFields l = true →
      wfFields (stripFields l) = true) := by
  induction n with
  | zero =>
    refine ⟨?_, ?_, ?_⟩
    · intro v hf _
      exact absurd hf (by have := pfuel_pos v; omega)
    · intro l hf _
      exact absurd hf (by have := pfuelList_pos l; omega)
    · intro l hf _
      exact absurd hf (by have := pfuelFields_pos l; omega)
  | succ n ih =>
    obtain ⟨ihV, ihI, ihF⟩ := ih
    refine ⟨?_, ?_, ?_⟩
    · intro v hfuel hnum
      cases v with
      | undef => rfl
      | null => rfl
      | nan => rfl
      | bool b => rfl
      | num q => exact hnum
      | str s => rfl
      | arr l =>
        show wfList (stripList l) = true
        exact ihI l (by simp only [pfuel] at hfuel; omega) (by simpa [numsOk] using hnum)
      | obj l =>
        show wfFields (stripFields l) = true
        exact ihF l (by simp only [pfuel] at hfuel; omega) (by simpa [numsOk] using hnum)
    · intro l hfuel hnum
      cases l with
      | nil => rfl
      | cons x xs =>
        have h1 : numsOk x = true := by simp [numsOkList] at hnum; exact hnum.1
        have h2 : numsOkList xs = true := by simp [numsOkList] at hnum; exact hnum.2
        have hxv := ihV x
          (by have := pfuelList_pos xs; simp only [pfuelList] at hfuel; omega) h1
        have hxsv := ihI xs
          (by have := pfuel_pos x; simp only [pfuelList] at hfuel; omega) h2
        show wfList (stripJS x :: stripList xs) = true
        simp [wfList, hxv, hxsv]
    · intro l hfuel hnum
      cases l with
      | nil => rfl
      | cons f fs =>
        obtain ⟨k, x⟩ := f
        have h1 : numsOk x = true := by simp [numsOkFields] at hnum; exact hnum.1
        have h2 : numsOkFields fs = true := by simp [numsOkFields] at hnum; exact hnum.2
        have hx := ihV x
          (by have := pfuelFields_pos fs; simp only [pfuelFields] at hfuel; omega) h1
        have hfs := ihF fs
          (by have := pfuel_pos x; simp only [pfuelFields] at hfuel; omega) h2
        by_cases hu : isUndef x = true
        · rw [show stripFields ((k, x) :: fs) = stripFields fs from by
            rw [stripFields, if_pos hu]]
          exact hfs
        · rw [show stripFields ((k, x) :: fs) = (k, stripJS x) :: stripFields fs from by
            rw [stripFields, if_neg hu]]
          show wfFields ((k, stripJS x) :: stripFields fs) = true
          simp [wfFields, hx, hfs]

/-! Section: Integer and PHP-escape parsing lemmas -/

theorem intCast_natAbs_nonneg {i : ℤ} (h : 0 ≤ i) :
    ((i.natAbs : Nat) : ℚ) = (i : ℚ) := by
  have h1 : (i.natAbs : ℤ) = i := Int.natAbs_of_nonneg h
  calc ((i.natAbs : Nat) : ℚ) = ((i.natAbs : ℤ) : ℚ) :=
      (Int.cast_natCast i.natAbs).symm
    _ = (i : ℚ) := by rw [h1]

theorem intCast_natAbs_neg {i : ℤ} (h : i < 0) :
    -((i.natAbs : Nat) : ℚ) = (i : ℚ) := by
  have h1 : (i.natAbs : ℤ) = -i := by
    rw [← Int.natAbs_neg]
    exact Int.natAbs_of_nonneg (by omega)
  calc -((i.natAbs : Nat) : ℚ) = -(((i.natAbs : ℤ) : ℚ)) :=
      congrArg Neg.neg (Int.cast_natCast i.natAbs).symm
    _ = -(((-i : ℤ) : ℚ)) := by rw [h1]
    _ = (i : ℚ) := by rw [Int.cast_neg, neg_neg]

/-- Parsing the decimal rendering of an integer recovers it. -/
theorem parseV_intStep (i : ℤ) (fuel : Nat) (input rest : List Char)
    (hb : boundary rest = true) (hin : skipWs input = intToChars i ++ rest) :
    parseV (fuel + 1) input = some (.num (i : ℚ), rest) := by
  rw [intToChars] at hin
  by_cases hneg : i < 0
  · rw [if_pos hneg] at hin
    simp only [List.cons_append, List.singleton_append, List.nil_append] at hin
    rw [parseV_negStep fuel input (natToChars i.natAbs ++ rest) hin,
      parseNat_natToChars i.natAbs rest hb]
    dsimp only
    rw [intCast_natAbs_neg hneg]
  · rw [if_neg hneg, List.nil_append] at hin
    obtain ⟨c, cs, hc, hd2⟩ := natToChars_head i.natAbs
    have hin2 : skipWs input = c :: (cs ++ rest) := by rw [hin, hc]; rfl
    have ht : takeDigits (c :: (cs ++ rest)) 0 = (i.natAbs, rest) := by
      have := takeDigits_natToChars_done i.natAbs rest hb
      rwa [hc, List.cons_append] at this
    rw [parseV_digitStep fuel input (cs ++ rest) c hin2 hd2 i.natAbs rest ht,
      intCast_natAbs_nonneg (by omega)]

theorem natToChars_all_digits (n : Nat) :
    ∀ c ∈ natToChars n, isDigitChar c = true := by
  induction n using Nat.strong_induction_on with
  | _ n ih =>
    by_cases h : n < 10
    · rw [natToChars_eq, if_pos h]
      intro c hc
      simp only [List.mem_singleton] at hc
      rw [hc]
      exact digitChar_isDigit h
    · rw [natToChars_eq, if_neg h]
      intro c hc
      simp only [List.mem_append, List.mem_singleton] at hc
      rcases hc with hc | hc
      · exact ih (n / 10) (Nat.div_lt_self (by omega) (by omega)) c hc
      · rw [hc]
        exact digitChar_isDigit (Nat.mod_lt n (by omega))

theorem isDigit_not_quote_backslash {c : Char} (h : isDigitChar c = true) :
    ¬c = '"' ∧ ¬c = '\\' := by
  simp only [isDigitChar, Bool.and_eq_true, decide_eq_true_eq] at h
  constructor
  all_goals intro he; rw [he] at h; exact absurd h (by decide)

/-- Parsing a string body of plain characters (no quote, no backslash)
just collects them. -/
theorem parseStrBody_plainChars (cs : List Char) :
    (∀ c ∈ cs, ¬c = '"' ∧ ¬c = '\\') → ∀ rest,
    parseStrBody (cs ++ '"' :: rest) = some (cs, rest) := by
  induction cs with
  | nil => intro _ rest; exact parseStrBody_quote rest
  | cons c cs ih =>
    intro h rest
    obtain ⟨h1, h2⟩ := h c (by simp)
    rw [List.cons_append, parseStrBody_plain c _ h1 h2,
      ih (fun c hc => h c (by simp [hc])) rest]

theorem intToChars_plain (i : ℤ) : ∀ c ∈ intToChars i, ¬c = '"' ∧ ¬c = '\\' := by
  intro c hc
  rw [intToChars] at hc
  simp only [List.mem_append] at hc
  rcases hc with hc | hc
  · have hcm : c = '-' := by
      by_cases hn : i < 0
      · rw [if_pos hn] at hc
        simpa using hc
      · rw [if_neg hn] at hc
        simp at hc
    rw [hcm]
    exact ⟨by decide, by decide⟩
  · exact isDigit_not_quote_backslash (natToChars_all_digits i.natAbs c hc)

theorem hex4_parse {t : Nat} (ht : t < 65536) (r : List Char) (cs2 : List Char)
    (rest : List Char) (hrec : parseStrBody r = some (cs2, rest)) :
    parseStrBody ('\\' :: 'u' :: PHP.hex4 t ++ r) =
      some (Char.ofNat t :: cs2, rest) := by
  show parseStrBody ('\\' :: 'u' :: hexDigit (t / 4096 % 16) :: hexDigit (t / 256 % 16) ::
    hexDigit (t / 16 % 16) :: hexDigit (t % 16) :: r) = _
  rw [parseStrBody_uStep _ _ _ _ (t / 4096 % 16) (t / 256 % 16) (t / 16 % 16) (t % 16) r
    (hexVal_hexDigit (by omega)) (hexVal_hexDigit (by omega))
    (hexVal_hexDigit (by omega)) (hexVal_hexDigit (by omega)), hrec]
  have harith : ((t / 4096 % 16 * 16 + t / 256 % 16) * 16 + t / 16 % 16) * 16 + t % 16 =
      t := by omega
  rw [harith]

theorem PHP.parseStrBody_phpEscChars (cs : List Char) :
    (∀ c ∈ cs, c.toNat < 65536) → ∀ rest,
    parseStrBody (PHP.phpEscChars cs ++ '"' :: rest) = some (cs, rest) := by
  induction cs with
  | nil => intro _ rest; exact parseStrBody_quote rest
  | cons c cs ih =>
    intro hbmp rest
    have ihr := ih (fun c hc => hbmp c (by simp [hc])) rest
    simp only [PHP.phpEscChars, List.append_assoc]
    by_cases h1 : c = '"'
    · subst h1
      rw [show PHP.phpEscapeChar '"' = ['\\', '"'] from rfl]
      simp only [List.cons_append, List.nil_append]
      rw [parseStrBody_escStep '"' '"' _ rfl (by decide), ihr]
    · by_cases h2 : c = '\\'
      · subst h2
        rw [show PHP.phpEscapeChar '\\' = ['\\', '\\'] from rfl]
        simp only [List.cons_append, List.nil_append]
        rw [parseStrBody_escStep '\\' '\\' _ rfl (by decide), ihr]
      · by_cases h3 : c = '/'
        · subst h3
          rw [show PHP.phpEscapeChar '/' = ['\\', '/'] from rfl]
          simp only [List.cons_append, List.nil_append]
          rw [parseStrBody_escStep '/' '/' _ rfl (by decide), ihr]
        · by_cases h4 : c.toNat = 8
          · have hc : Char.ofNat 8 = c := by rw [← h4, Char.ofNat_toNat]
            rw [PHP.phpEscapeChar, if_neg h1, if_neg h2, if_neg h3, if_pos h4]
            simp only [List.cons_append, List.nil_append]
            rw [parseStrBody_escStep 'b' (Char.ofNat 8) _ rfl (by decide), ihr, hc]
          · by_cases h5 : c.toNat = 12
            · have hc : Char.ofNat 12 = c := by rw [← h5, Char.ofNat_toNat]
              rw [PHP.phpEscapeChar, if_neg h1, if_neg h2, if_neg h3, if_neg h4,
                if_pos h5]
              simp only [List.cons_append, List.nil_append]
              rw [parseStrBody_escStep 'f' (Char.ofNat 12) _ rfl (by decide), ihr, hc]
            · by_cases h6 : c.toNat = 10
              · have hc : Char.ofNat 10 = c := by rw [← h6, Char.ofNat_toNat]
                rw [PHP.phpEscapeChar, if_neg h1, if_neg h2, if_neg h3, if_neg h4,
                  if_neg h5, if_pos h6]
                simp only [List.cons_append, List.nil_append]
                rw [parseStrBody_escStep 'n' (Char.ofNat 10) _ rfl (by decide), ihr, hc]
              · by_cases h7 : c.toNat = 13
                · have hc : Char.ofNat 13 = c := by rw [← h7, Char.ofNat_toNat]
                  rw [PHP.phpEscapeChar, if_neg h1, if_neg h2, if_neg h3, if_neg h4,
                    if_neg h5, if_neg h6, if_pos h7]
                  simp only [List.cons_append, List.nil_append]
                  rw [parseStrBody_escStep 'r' (Char.ofNat 13) _ rfl (by decide), ihr, hc]
                · by_cases h8 : c.toNat = 9
                  · have hc : Char.ofNat 9 = c := by rw [← h8, Char.ofNat_toNat]
                    rw [PHP.phpEscapeChar, if_neg h1, if_neg h2, if_neg h3, if_neg h4,
                      if_neg h5, if_neg h6, if_neg h7, if_pos h8]
                    simp only [List.cons_append, List.nil_append]
                    rw [parseStrBody_escStep 't' (Char.ofNat 9) _ rfl (by decide), ihr,
                      hc]
                  · by_cases h9 : c.toNat < 32
                    · rw [PHP.phpEscapeChar, if_neg h1, if_neg h2, if_neg h3, if_neg h4,
                        if_neg h5, if_neg h6, if_neg h7, if_neg h8, if_pos h9]
                      rw [show ('\\' :: 'u' :: PHP.hex4 c.toNat) ++
                        (PHP.phpEscChars cs ++ '"' :: rest) =
                        '\\' :: 'u' :: PHP.hex4 c.toNat ++
                          (PHP.phpEscChars cs ++ '"' :: rest) from rfl]
                      rw [hex4_parse (by omega) _ cs rest ihr, Char.ofNat_toNat]
                    · by_cases h10 : 127 ≤ c.toNat
                      · rw [PHP.phpEscapeChar, if_neg h1, if_neg h2, if_neg h3,
                          if_neg h4, if_neg h5, if_neg h6, if_neg h7, if_neg h8,
                          if_neg h9, if_pos h10]
                        rw [show ('\\' :: 'u' :: PHP.hex4 c.toNat) ++
                          (PHP.phpEscChars cs ++ '"' :: rest) =
                          '\\' :: 'u' :: PHP.hex4 c.toNat ++
                            (PHP.phpEscChars cs ++ '"' :: rest) from rfl]
                        rw [hex4_parse (hbmp c (by simp)) _ cs rest ihr,
                          Char.ofNat_toNat]
                      · rw [PHP.phpEscapeChar, if_neg h1, if_neg h2, if_neg h3,
                          if_neg h4, if_neg h5, if_neg h6, if_neg h7, if_neg h8,
                          if_neg h9, if_neg h10]
                        simp only [List.cons_append, List.nil_append]
                        rw [parseStrBody_plain c _ h1 h2, ihr]

/-! Section: PHP encoder round-trip helpers -/

theorem skipWs_nlIndent4 (d : Nat) (rest : List Char) :
    skipWs (PHP.nlIndent4 d ++ rest) = skipWs rest := by
  apply skipWs_append_ws
  intro c hc
  simp only [PHP.nlIndent4, PHP.indent4, List.mem_cons] at hc
  rcases hc with h | h
  · rw [h]; rfl
  · rw [List.eq_of_mem_replicate h]; rfl

theorem boundary_nlIndent4 (d : Nat) (l : List Char) :
    boundary (PHP.nlIndent4 d ++ l) = true := rfl

theorem pfuelPHP_pos (v : PHP.PHPValue) : 1 ≤ PHP.pfuelPHP v := by
  cases v <;> simp [PHP.pfuelPHP]

theorem pfuelPHPList_pos (l : List (PHP.PHPKey × PHP.PHPValue)) :
    1 ≤ PHP.pfuelPHPList l := by
  cases l with
  | nil => simp [PHP.pfuelPHPList]
  | cons e es => obtain ⟨k, x⟩ := e; simp [PHP.pfuelPHPList]

theorem jsNumToChars_int {q : ℚ} (hden : q.den = 1) :
    jsNumToChars q = intToChars q.num := by
  rw [jsNumToChars, if_pos hden]

theorem phpEnc_arr (l : List (PHP.PHPKey × PHP.PHPValue)) (d : Nat) :
    PHP.phpEnc (.arr l) d =
      if PHP.isListKeys l 0 then '[' :: PHP.phpItemsTail l d
      else '\x7b' :: PHP.phpFieldsTail l d := by
  cases l with
  | nil => rfl
  | cons e es =>
    simp only [PHP.phpEnc, PHP.phpItemsTail, PHP.phpFieldsTail]

/-- The first character of an encoded PHP value is never whitespace and
never a closing bracket. -/
theorem phpSerHead {v : PHP.PHPValue} (d : Nat) (hwf : PHP.wfPHP v = true) :
    ∃ c cs, PHP.phpEnc v d = c :: cs ∧ isWs c = false ∧ ¬c = ']' := by
  cases v with
  | null => exact ⟨'n', _, rfl, by decide, by decide⟩
  | bool b =>
    cases b
    · exact ⟨'f', _, rfl, by decide, by decide⟩
    · exact ⟨'t', _, rfl, by decide, by decide⟩
  | str s => exact ⟨'"', _, rfl, by decide, by decide⟩
  | int n =>
    have hser : PHP.phpEnc (.int n) d = intToChars n := rfl
    by_cases hneg : n < 0
    · exact ⟨'-', _, by rw [hser, intToChars, if_pos hneg]; rfl, by decide, by decide⟩
    · obtain ⟨c, cs, hc, hd2⟩ := natToChars_head n.natAbs
      obtain ⟨hws, hbr, _⟩ := isDigit_facts hd2
      exact ⟨c, cs, by rw [hser, intToChars, if_neg hneg, List.nil_append, hc], hws, hbr⟩
  | float q =>
    have hden : q.den = 1 := by simpa [PHP.wfPHP] using hwf
    have hser : PHP.phpEnc (.float q) d = intToChars q.num := by
      show jsNumToChars q = _
      rw [jsNumToChars_int hden]
    by_cases hneg : q.num < 0
    · exact ⟨'-', _, by rw [hser, intToChars, if_pos hneg]; rfl, by decide, by decide⟩
    · obtain ⟨c, cs, hc, hd2⟩ := natToChars_head q.num.natAbs
      obtain ⟨hws, hbr, _⟩ := isDigit_facts hd2
      exact ⟨c, cs, by rw [hser, intToChars, if_neg hneg, List.nil_append, hc], hws, hbr⟩
  | arr l =>
    rw [phpEnc_arr]
    by_cases h : PHP.isListKeys l 0
    · exact ⟨'[', _, by rw [if_pos h], by decide, by decide⟩
    · exact ⟨'\x7b', _, by rw [if_neg h], by decide, by decide⟩

/-- Every PHP array key is rendered as a JSON string whose body parses to
the key's string form. -/
theorem phpKeyChars_parse (k : PHP.PHPKey) (hk : PHP.wfPHPKey k = true) :
    ∃ body, PHP.phpKeyChars k = '"' :: (body ++ ['"']) ∧
      ∀ r, parseStrBody (body ++ '"' :: r) =
        some ((PHP.phpKeyString k).data, r) := by
  cases k with
  | i n =>
    exact ⟨intToChars n, rfl,
      fun r => parseStrBody_plainChars (intToChars n) (intToChars_plain n) r⟩
  | s s =>
    refine ⟨PHP.phpEscChars s.data, rfl, fun r => ?_⟩
    apply PHP.parseStrBody_phpEscChars
    intro c hc
    simp only [PHP.wfPHPKey, strBMP, List.all_eq_true, decide_eq_true_eq] at hk
    exact hk c hc

/-- Full PHP-encoder/parser round-trip, by induction on parser fuel:
parsing an encoded well-formed PHP value yields its JSON denotation. -/
theorem php_parse_ser (fuel : Nat) :
    (∀ v d input rest, PHP.wfPHP v = true → PHP.pfuelPHP v ≤ fuel →
      boundary rest = true → skipWs input = PHP.phpEnc v d ++ rest →
      parseV fuel input = some (PHP.phpToJS v, rest)) ∧
    (∀ l d rest, PHP.wfPHPEntries l = true → PHP.pfuelPHPList l ≤ fuel →
      parseItems fuel (PHP.phpItemsTail l d ++ rest) =
        some (PHP.phpToJSList l, rest)) ∧
    (∀ l d rest, PHP.wfPHPEntries l = true → PHP.pfuelPHPList l ≤ fuel →
      parseFields fuel (PHP.phpFieldsTail l d ++ rest) =
        some (PHP.phpToJSFields l, rest)) := by
  induction fuel with
  | zero =>
    refine ⟨?_, ?_, ?_⟩
    · intro v _ _ _ _ hf _ _
      exact absurd hf (by have := pfuelPHP_pos v; omega)
    · intro l _ _ _ hf
      exact absurd hf (by have := pfuelPHPList_pos l; omega)
    · intro l _ _ _ hf
      exact absurd hf (by have := pfuelPHPList_pos l; omega)
  | succ fuel ih =>
    obtain ⟨ihV, ihI, ihF⟩ := ih
    refine ⟨?_, ?_, ?_⟩
    · intro v d input rest hwf hfuel hb hin
      cases v with
      | null => exact parseV_nullStep fuel input rest hin
      | bool b =>
        cases b
        · exact parseV_falseStep fuel input rest hin
        · exact parseV_trueStep fuel input rest hin
      | int n =>
        rw [show PHP.phpEnc (.int n) d = intToChars n from rfl] at hin
        exact parseV_intStep n fuel input rest hb hin
      | float q =>
        have hden : q.den = 1 := by simpa [PHP.wfPHP] using hwf
        have hq : ((q.num : ℤ) : ℚ) = q := (Rat.den_eq_one_iff q).mp hden
        rw [show PHP.phpEnc (.float q) d = jsNumToChars q from rfl,
          jsNumToChars_int hden] at hin
        have := parseV_intStep q.num fuel input rest hb hin
        rw [show PHP.phpToJS (.float q) = .num q from rfl, ← hq]
        exact this
      | str s =>
        have hbmp : ∀ c ∈ s.data, c.toNat < 65536 := by
          have hs : strBMP s = true := by simpa [PHP.wfPHP] using hwf
          simpa [strBMP, List.all_eq_true, decide_eq_true_eq] using hs
        rw [parseV_strStep fuel input (PHP.phpEscChars s.data ++ ('"' :: rest)) (by
          rw [hin]
          show ('"' :: (PHP.phpEscChars s.data ++ ['"'])) ++ rest = _
          simp [List.append_assoc])]
        rw [PHP.parseStrBody_phpEscChars s.data hbmp rest]
        rfl
      | arr l =>
        have hwl : PHP.wfPHPEntries l = true := by simpa [PHP.wfPHP] using hwf
        rw [phpEnc_arr] at hin
        by_cases hlk : PHP.isListKeys l 0
        · rw [if_pos hlk] at hin
          rw [parseV_arrStep fuel input (PHP.phpItemsTail l d ++ rest)
            (by rw [hin]; rfl)]
          rw [ihI l d rest hwl (by simp only [PHP.pfuelPHP] at hfuel; omega)]
          show some (JSValue.arr (PHP.phpToJSList l), rest) = _
          rw [show PHP.phpToJS (.arr l) =
            (if PHP.isListKeys l 0 then JSValue.arr (PHP.phpToJSList l)
             else JSValue.obj (PHP.phpToJSFields l)) from rfl, if_pos hlk]
        · rw [if_neg hlk] at hin
          rw [parseV_objStep fuel input (PHP.phpFieldsTail l d ++ rest)
            (by rw [hin]; rfl)]
          rw [ihF l d rest hwl (by simp only [PHP.pfuelPHP] at hfuel; omega)]
          show some (JSValue.obj (PHP.phpToJSFields l), rest) = _
          rw [show PHP.phpToJS (.arr l) =
            (if PHP.isListKeys l 0 then JSValue.arr (PHP.phpToJSList l)
             else JSValue.obj (PHP.phpToJSFields l)) from rfl, if_neg hlk]
    · intro l d rest hwf hfuel
      cases l with
      | nil =>
        exact parseItems_closeStep fuel _ rest (skipWs_cons_of_not_ws rest (by decide))
      | cons e es =>
        obtain ⟨k, x⟩ := e
        simp only [PHP.wfPHPEntries, Bool.and_eq_true] at hwf
        obtain ⟨⟨hk, hx⟩, hes⟩ := hwf
        obtain ⟨c, cs, hA, hws, hbr⟩ := phpSerHead (d+1) hx
        cases es with
        | nil =>
          have hfx : PHP.pfuelPHP x ≤ fuel := by
            simp only [PHP.pfuelPHPList] at hfuel
            omega
          have hform : PHP.phpItemsTail [(k, x)] d ++ rest =
              PHP.nlIndent4 (d+1) ++ (PHP.phpEnc x (d+1) ++
                (PHP.nlIndent4 d ++ (']' :: rest))) := by
            show (PHP.nlIndent4 (d+1) ++ PHP.phpEncItems [(k, x)] (d+1) ++
              PHP.nlIndent4 d ++ [']']) ++ rest = _
            rw [show PHP.phpEncItems [(k, x)] (d+1) = PHP.phpEnc x (d+1) from rfl]
            simp [List.append_assoc]
          have hskip : skipWs (PHP.phpItemsTail [(k, x)] d ++ rest) =
              PHP.phpEnc x (d+1) ++ (PHP.nlIndent4 d ++ (']' :: rest)) := by
            rw [hform, skipWs_nlIndent4, hA, List.cons_append]
            exact skipWs_cons_of_not_ws _ hws
          have hv : parseV fuel (PHP.phpItemsTail [(k, x)] d ++ rest) =
              some (PHP.phpToJS x, PHP.nlIndent4 d ++ (']' :: rest)) :=
            ihV x (d+1) _ _ hx hfx (boundary_nlIndent4 d _) hskip
          have h2 : skipWs (PHP.nlIndent4 d ++ (']' :: rest)) = ']' :: rest := by
            rw [skipWs_nlIndent4]
            exact skipWs_cons_of_not_ws rest (by decide)
          exact parseItems_lastStep fuel _ _ _ _ c
            (by rw [hskip, hA, List.cons_append]) hbr hws (PHP.phpToJS x) hv h2
        | cons e2 es2 =>
          obtain ⟨k2, x2⟩ := e2
          have hfx : PHP.pfuelPHP x ≤ fuel := by
            simp only [PHP.pfuelPHPList] at hfuel
            have := pfuelPHPList_pos ((k2, x2) :: es2)
            omega
          have hfxs : PHP.pfuelPHPList ((k2, x2) :: es2) ≤ fuel := by
            have hx1 := pfuelPHP_pos x
            simp only [PHP.pfuelPHPList] at hfuel ⊢
            omega
          have hser : PHP.phpEncItems ((k, x) :: (k2, x2) :: es2) (d+1) =
              PHP.phpEnc x (d+1) ++ ((',' :: PHP.nlIndent4 (d+1)) ++
                PHP.phpEncItems ((k2, x2) :: es2) (d+1)) := by
            show PHP.phpEnc x (d+1) ++ (',' :: PHP.nlIndent4 (d+1)) ++
              PHP.phpEncItems ((k2, x2) :: es2) (d+1) = _
            simp [List.append_assoc]
          have hform : PHP.phpItemsTail ((k, x) :: (k2, x2) :: es2) d ++ rest =
              PHP.nlIndent4 (d+1) ++ (PHP.phpEnc x (d+1) ++
                (',' :: (PHP.phpItemsTail ((k2, x2) :: es2) d ++ rest))) := by
            show (PHP.nlIndent4 (d+1) ++ PHP.phpEncItems ((k, x) :: (k2, x2) :: es2)
              (d+1) ++ PHP.nlIndent4 d ++ [']']) ++ rest = _
            rw [hser]
            show _ = PHP.nlIndent4 (d+1) ++ (PHP.phpEnc x (d+1) ++ (',' ::
              ((PHP.nlIndent4 (d+1) ++ PHP.phpEncItems ((k2, x2) :: es2) (d+1) ++
                PHP.nlIndent4 d ++ [']']) ++ rest)))
            simp [List.append_assoc]
          have hskip : skipWs (PHP.phpItemsTail ((k, x) :: (k2, x2) :: es2) d ++ rest) =
              PHP.phpEnc x (d+1) ++
                (',' :: (PHP.phpItemsTail ((k2, x2) :: es2) d ++ rest)) := by
            rw [hform, skipWs_nlIndent4, hA, List.cons_append]
            exact skipWs_cons_of_not_ws _ hws
          have hv : parseV fuel (PHP.phpItemsTail ((k, x) :: (k2, x2) :: es2) d ++ rest) =
              some (PHP.phpToJS x, ',' ::
                (PHP.phpItemsTail ((k2, x2) :: es2) d ++ rest)) :=
            ihV x (d+1) _ _ hx hfx (boundary_comma _) hskip
          have h2 : skipWs (',' :: (PHP.phpItemsTail ((k2, x2) :: es2) d ++ rest)) =
              ',' :: (PHP.phpItemsTail ((k2, x2) :: es2) d ++ rest) :=
            skipWs_cons_of_not_ws _ (by decide)
          have hrec : parseItems fuel (PHP.phpItemsTail ((k2, x2) :: es2) d ++ rest) =
              some (PHP.phpToJSList ((k2, x2) :: es2), rest) :=
            ihI ((k2, x2) :: es2) d rest hes hfxs
          exact parseItems_commaStep fuel _ _ _ _ _ c
            (by rw [hskip, hA, List.cons_append]) hbr hws (PHP.phpToJS x)
            (PHP.phpToJSList ((k2, x2) :: es2)) hv h2 hrec
    · intro l d rest hwf hfuel
      cases l with
      | nil =>
        have hskip : skipWs (PHP.phpFieldsTail [] d ++ rest) = '\x7d' :: rest := by
          show skipWs ((PHP.nlIndent4 (d+1) ++ PHP.phpEncFields [] (d+1) ++
            PHP.nlIndent4 d ++ ['\x7d']) ++ rest) = _
          rw [show PHP.phpEncFields [] (d+1) = [] from rfl]
          simp only [List.append_nil, List.append_assoc, List.cons_append,
            List.nil_append]
          rw [skipWs_nlIndent4, skipWs_nlIndent4]
          exact skipWs_cons_of_not_ws rest (by decide)
        exact parseFields_closeStep fuel _ rest hskip
      | cons e es =>
        obtain ⟨k, x⟩ := e
        simp only [PHP.wfPHPEntries, Bool.and_eq_true] at hwf
        obtain ⟨⟨hk, hx⟩, hes⟩ := hwf
        obtain ⟨body, hkeq, hkparse⟩ := phpKeyChars_parse k hk
        obtain ⟨c, cs, hA, hws, _⟩ := phpSerHead (d+1) hx
        have hfx : PHP.pfuelPHP x ≤ fuel := by
          simp only [PHP.pfuelPHPList] at hfuel
          have := pfuelPHPList_pos es
          omega
        cases es with
        | nil =>
          have hform : PHP.phpFieldsTail [(k, x)] d ++ rest =
              PHP.nlIndent4 (d+1) ++ ('"' :: (body ++ ('"' :: (':' :: (' ' ::
                (PHP.phpEnc x (d+1) ++
                  (PHP.nlIndent4 d ++ ('\x7d' :: rest)))))))) := by
            show (PHP.nlIndent4 (d+1) ++ PHP.phpEncFields [(k, x)] (d+1) ++
              PHP.nlIndent4 d ++ ['\x7d']) ++ rest = _
            rw [show PHP.phpEncFields [(k, x)] (d+1) =
              PHP.phpKeyChars k ++ (':' :: ' ' :: PHP.phpEnc x (d+1)) from rfl, hkeq]
            simp [List.append_assoc]
          have hskip : skipWs (PHP.phpFieldsTail [(k, x)] d ++ rest) =
              '"' :: (body ++ ('"' :: (':' :: (' ' :: (PHP.phpEnc x (d+1) ++
                (PHP.nlIndent4 d ++ ('\x7d' :: rest))))))) := by
            rw [hform, skipWs_nlIndent4]
            exact skipWs_cons_of_not_ws _ (by decide)
          have hk2 := hkparse (':' :: (' ' :: (PHP.phpEnc x (d+1) ++
            (PHP.nlIndent4 d ++ ('\x7d' :: rest)))))
          have h2 : skipWs (':' :: (' ' :: (PHP.phpEnc x (d+1) ++
              (PHP.nlIndent4 d ++ ('\x7d' :: rest))))) =
              ':' :: (' ' :: (PHP.phpEnc x (d+1) ++
                (PHP.nlIndent4 d ++ ('\x7d' :: rest)))) :=
            skipWs_cons_of_not_ws _ (by decide)
          have hskip2 : skipWs (' ' :: (PHP.phpEnc x (d+1) ++
              (PHP.nlIndent4 d ++ ('\x7d' :: rest)))) =
              PHP.phpEnc x (d+1) ++ (PHP.nlIndent4 d ++ ('\x7d' :: rest)) := by
            show skipWs ([' '] ++ (PHP.phpEnc x (d+1) ++
              (PHP.nlIndent4 d ++ ('\x7d' :: rest)))) = _
            rw [skipWs_append_ws _ (by intro a ha; simp at ha; rw [ha]; rfl), hA,
              List.cons_append]
            exact skipWs_cons_of_not_ws _ hws
          have hv : parseV fuel (' ' :: (PHP.phpEnc x (d+1) ++
              (PHP.nlIndent4 d ++ ('\x7d' :: rest)))) =
              some (PHP.phpToJS x, PHP.nlIndent4 d ++ ('\x7d' :: rest)) :=
            ihV x (d+1) _ _ hx hfx (boundary_nlIndent4 d _) hskip2
          have h3 : skipWs (PHP.nlIndent4 d ++ ('\x7d' :: rest)) = '\x7d' :: rest := by
            rw [skipWs_nlIndent4]
            exact skipWs_cons_of_not_ws rest (by decide)
          have := parseFields_lastStep fuel (PHP.phpFieldsTail [(k, x)] d ++ rest)
            _ _ _ _ _ (PHP.phpKeyString k).data (PHP.phpToJS x) hskip hk2 h2 hv h3
          rwa [show (String.mk (PHP.phpKeyString k).data, PHP.phpToJS x) =
            (PHP.phpKeyString k, PHP.phpToJS x) from rfl] at this
        | cons e2 es2 =>
          obtain ⟨k2, x2⟩ := e2
          have hfs2 : PHP.pfuelPHPList ((k2, x2) :: es2) ≤ fuel := by
            have hx1 := pfuelPHP_pos x
            simp only [PHP.pfuelPHPList] at hfuel ⊢
            omega
          have hform : PHP.phpFieldsTail ((k, x) :: (k2, x2) :: es2) d ++ rest =
              PHP.nlIndent4 (d+1) ++ ('"' :: (body ++ ('"' :: (':' :: (' ' ::
                (PHP.phpEnc x (d+1) ++ (',' ::
                  (PHP.phpFieldsTail ((k2, x2) :: es2) d ++ rest)))))))) := by
            show (PHP.nlIndent4 (d+1) ++
              PHP.phpEncFields ((k, x) :: (k2, x2) :: es2) (d+1) ++
              PHP.nlIndent4 d ++ ['\x7d']) ++ rest = _
            rw [show PHP.phpEncFields ((k, x) :: (k2, x2) :: es2) (d+1) =
              PHP.phpKeyChars k ++ (':' :: ' ' :: PHP.phpEnc x (d+1)) ++
                (',' :: PHP.nlIndent4 (d+1)) ++
                  PHP.phpEncFields ((k2, x2) :: es2) (d+1) from rfl, hkeq]
            show _ = PHP.nlIndent4 (d+1) ++ ('"' :: (body ++ ('"' :: (':' :: (' ' ::
              (PHP.phpEnc x (d+1) ++ (',' ::
                ((PHP.nlIndent4 (d+1) ++ PHP.phpEncFields ((k2, x2) :: es2) (d+1) ++
                  PHP.nlIndent4 d ++ ['\x7d']) ++ rest))))))))
            simp [List.append_assoc]
          have hskip : skipWs (PHP.phpFieldsTail ((k, x) :: (k2, x2) :: es2) d ++
              rest) = '"' :: (body ++ ('"' :: (':' :: (' ' ::
                (PHP.phpEnc x (d+1) ++ (',' ::
                  (PHP.phpFieldsTail ((k2, x2) :: es2) d ++ rest))))))) := by
            rw [hform, skipWs_nlIndent4]
            exact skipWs_cons_of_not_ws _ (by decide)
          have hk2 := hkparse (':' :: (' ' :: (PHP.phpEnc x (d+1) ++ (',' ::
            (PHP.phpFieldsTail ((k2, x2) :: es2) d ++ rest)))))
          have h2 : skipWs (':' :: (' ' :: (PHP.phpEnc x (d+1) ++ (',' ::
              (PHP.phpFieldsTail ((k2, x2) :: es2) d ++ rest))))) =
              ':' :: (' ' :: (PHP.phpEnc x (d+1) ++ (',' ::
                (PHP.phpFieldsTail ((k2, x2) :: es2) d ++ rest)))) :=
            skipWs_cons_of_not_ws _ (by decide)
          have hskip2 : skipWs (' ' :: (PHP.phpEnc x (d+1) ++ (',' ::
              (PHP.phpFieldsTail ((k2, x2) :: es2) d ++ rest)))) =
              PHP.phpEnc x (d+1) ++ (',' ::
                (PHP.phpFieldsTail ((k2, x2) :: es2) d ++ rest)) := by
            show skipWs ([' '] ++ (PHP.phpEnc x (d+1) ++ (',' ::
              (PHP.phpFieldsTail ((k2, x2) :: es2) d ++ rest)))) = _
            rw [skipWs_append_ws _ (by intro a ha; simp at ha; rw [ha]; rfl), hA,
              List.cons_append]
            exact skipWs_cons_of_not_ws _ hws
          have hv : parseV fuel (' ' :: (PHP.phpEnc x (d+1) ++ (',' ::
              (PHP.phpFieldsTail ((k2, x2) :: es2) d ++ rest)))) =
              some (PHP.phpToJS x, ',' ::
                (PHP.phpFieldsTail ((k2, x2) :: es2) d ++ rest)) :=
            ihV x (d+1) _ _ hx hfx (boundary_comma _) hskip2
          have h3 : skipWs (',' :: (PHP.phpFieldsTail ((k2, x2) :: es2) d ++ rest)) =
              ',' :: (PHP.phpFieldsTail ((k2, x2) :: es2) d ++ rest) :=
            skipWs_cons_of_not_ws _ (by decide)
          have hrec : parseFields fuel (PHP.phpFieldsTail ((k2, x2) :: es2) d ++
              rest) = some (PHP.phpToJSFields ((k2, x2) :: es2), rest) :=
            ihF ((k2, x2) :: es2) d rest hes hfs2
          have := parseFields_commaStep fuel
            (PHP.phpFieldsTail ((k, x) :: (k2, x2) :: es2) d ++ rest)
            _ _ _ _ _ _ (PHP.phpKeyString k).data (PHP.phpToJS x)
            (PHP.phpToJSFields ((k2, x2) :: es2)) hskip hk2 h2 hv h3 hrec
          rwa [show (String.mk (PHP.phpKeyString k).data, PHP.phpToJS x) =
            (PHP.phpKeyString k, PHP.phpToJS x) from rfl] at this

/-- The encoding of a PHP value is at least as long as the parser fuel it
needs. -/
theorem phpLen_ge (n : Nat) :
    (∀ v d, PHP.pfuelPHP v ≤ n → PHP.wfPHP v = true →
      PHP.pfuelPHP v ≤ (PHP.phpEnc v d).length) ∧
    (∀ l d, PHP.pfuelPHPList l ≤ n → PHP.wfPHPEntries l = true →
      PHP.pfuelPHPList l ≤ (PHP.phpEncItems l d).length + 2) ∧
    (∀ l d, PHP.pfuelPHPList l ≤ n → PHP.wfPHPEntries l = true →
      PHP.pfuelPHPList l ≤ (PHP.phpEncFields l d).length + 2) := by
  induction n with
  | zero =>
    refine ⟨?_, ?_, ?_⟩
    · intro v _ hf _
      exact absurd hf (by have := pfuelPHP_pos v; omega)
    · intro l _ hf _
      exact absurd hf (by have := pfuelPHPList_pos l; omega)
    · intro l _ hf _
      exact absurd hf (by have := pfuelPHPList_pos l; omega)
  | succ n ih =>
    obtain ⟨ihV, ihI, ihF⟩ := ih
    refine ⟨?_, ?_, ?_⟩
    · intro v d hfuel hwf
      cases v with
      | null => simp [PHP.pfuelPHP, PHP.phpEnc, nullChars]
      | bool b => cases b <;> simp [PHP.pfuelPHP, PHP.phpEnc]
      | str s => simp [PHP.pfuelPHP, PHP.phpEnc]
      | int m =>
        rw [show PHP.phpEnc (.int m) d = intToChars m from rfl, intToChars]
        obtain ⟨c, cs, hc, _⟩ := natToChars_head m.natAbs
        by_cases hneg : m < 0 <;>
          simp [hneg, hc, PHP.pfuelPHP]
      | float q =>
        have hden : q.den = 1 := by simpa [PHP.wfPHP] using hwf
        rw [show PHP.phpEnc (.float q) d = jsNumToChars q from rfl,
          jsNumToChars_int hden, intToChars]
        obtain ⟨c, cs, hc, _⟩ := natToChars_head q.num.natAbs
        by_cases hneg : q.num < 0 <;>
          simp [hneg, hc, PHP.pfuelPHP]
      | arr l =>
        have hwl : PHP.wfPHPEntries l = true := by simpa [PHP.wfPHP] using hwf
        have hb : PHP.pfuelPHPList l ≤ n := by
          simp only [PHP.pfuelPHP] at hfuel; omega
        rw [phpEnc_arr]
        by_cases hlk : PHP.isListKeys l 0
        · rw [if_pos hlk]
          cases l with
          | nil => simp [PHP.pfuelPHP, PHP.pfuelPHPList, PHP.phpItemsTail]
          | cons e es =>
            have := ihI (e :: es) (d+1) hb hwl
            simp only [PHP.pfuelPHP, PHP.phpItemsTail, List.length_cons,
              List.length_append, PHP.nlIndent4, PHP.indent4,
              List.length_replicate, List.length_singleton]
            omega
        · rw [if_neg hlk]
          have := ihF l (d+1) hb hwl
          simp only [PHP.pfuelPHP, PHP.phpFieldsTail, List.length_cons,
            List.length_append, PHP.nlIndent4, PHP.indent4,
            List.length_replicate, List.length_singleton]
          omega
    · intro l d hfuel hwf
      cases l with
      | nil => simp [PHP.pfuelPHPList, PHP.phpEncItems]
      | cons e es =>
        obtain ⟨k, x⟩ := e
        simp only [PHP.wfPHPEntries, Bool.and_eq_true] at hwf
        obtain ⟨⟨hk, hx⟩, hes⟩ := hwf
        cases es with
        | nil =>
          have hfx : PHP.pfuelPHP x ≤ n := by
            simp only [PHP.pfuelPHPList] at hfuel
            omega
          have := ihV x d hfx hx
          rw [show PHP.phpEncItems [(k, x)] d = PHP.phpEnc x d from rfl]
          simp only [PHP.pfuelPHPList]
          omega
        | cons e2 es2 =>
          obtain ⟨k2, x2⟩ := e2
          have hfx : PHP.pfuelPHP x ≤ n := by
            simp only [PHP.pfuelPHPList] at hfuel
            have := pfuelPHPList_pos ((k2, x2) :: es2)
            omega
          have hfxs : PHP.pfuelPHPList ((k2, x2) :: es2) ≤ n := by
            have := pfuelPHP_pos x
            simp only [PHP.pfuelPHPList] at hfuel ⊢
            omega
          have h1 := ihV x d hfx hx
          have h2 := ihI ((k2, x2) :: es2) d hfxs hes
          rw [show PHP.phpEncItems ((k, x) :: (k2, x2) :: es2) d =
            PHP.phpEnc x d ++ (',' :: PHP.nlIndent4 d) ++
              PHP.phpEncItems ((k2, x2) :: es2) d from rfl]
          simp only [PHP.pfuelPHPList, List.length_append, List.length_cons,
            PHP.nlIndent4, PHP.indent4, List.length_replicate] at h2 ⊢
          omega
    · intro l d hfuel hwf
      cases l with
      | nil => simp [PHP.pfuelPHPList, PHP.phpEncFields]
      | cons e es =>
        obtain ⟨k, x⟩ := e
        simp only [PHP.wfPHPEntries, Bool.and_eq_true] at hwf
        obtain ⟨⟨hk, hx⟩, hes⟩ := hwf
        cases es with
        | nil =>
          have hfx : PHP.pfuelPHP x ≤ n := by
            simp only [PHP.pfuelPHPList] at hfuel
            omega
          have := ihV x d hfx hx
          rw [show PHP.phpEncFields [(k, x)] d =
            PHP.phpKeyChars k ++ (':' :: ' ' :: PHP.phpEnc x d) from rfl]
          simp only [PHP.pfuelPHPList, List.length_append, List.length_cons]
          omega
        | cons e2 es2 =>
          obtain ⟨k2, x2⟩ := e2
          have hfx : PHP.pfuelPHP x ≤ n := by
            simp only [PHP.pfuelPHPList] at hfuel
            have := pfuelPHPList_pos ((k2, x2) :: es2)
            omega
          have hfxs : PHP.pfuelPHPList ((k2, x2) :: es2) ≤ n := by
            have := pfuelPHP_pos x
            simp only [PHP.pfuelPHPList] at hfuel ⊢
            omega
          have h1 := ihV x d hfx hx
          have h2 := ihF ((k2, x2) :: es2) d hfxs hes
          rw [show PHP.phpEncFields ((k, x) :: (k2, x2) :: es2) d =
            PHP.phpKeyChars k ++ (':' :: ' ' :: PHP.phpEnc x d) ++
              (',' :: PHP.nlIndent4 d) ++
                PHP.phpEncFields ((k2, x2) :: es2) d from rfl]
          simp only [PHP.pfuelPHPList, List.length_append, List.length_cons,
            PHP.nlIndent4, PHP.indent4, List.length_replicate] at h2 ⊢
          omega

theorem pfuelPHP_le_length {v : PHP.PHPValue} (hwf : PHP.wfPHP v = true) (d : Nat) :
    PHP.pfuelPHP v ≤ (PHP.phpEnc v d).length :=
  (phpLen_ge (PHP.pfuelPHP v)).1 v d le_rfl hwf

/-- Round-trip: JSON-decoding the pretty-printed PHP encoding of a
well-formed PHP value yields exactly the value's JSON denotation. -/
theorem parseJson_phpEncode {v : PHP.PHPValue} (hwf : PHP.wfPHP v = true) :
    parseJson (PHP.json_encodePretty v) = some (PHP.phpToJS v) := by
  obtain ⟨c, cs, hA, hws, _⟩ := phpSerHead 0 hwf
  have hskip : skipWs (PHP.phpEnc v 0) = PHP.phpEnc v 0 ++ [] := by
    rw [List.append_nil, hA]
    exact skipWs_cons_of_not_ws _ hws
  have hparse : parseV (PHP.json_encodePretty v).length (PHP.phpEnc v 0) =
      some (PHP.phpToJS v, []) :=
    (php_parse_ser _).1 v 0 (PHP.phpEnc v 0) [] hwf
      (le_trans (pfuelPHP_le_length hwf 0) (le_of_eq rfl)) rfl hskip
  show (match parseV (PHP.json_encodePretty v).length
      (PHP.json_encodePretty v).data with
    | some (w, rest) => if skipWs rest = [] then some w else none
    | none => none) = some (PHP.phpToJS v)
  rw [show (PHP.json_encodePretty v).data = PHP.phpEnc v 0 from rfl, hparse]
  rfl

theorem numsOk_of_string {m : JSValue} (h : typeofIsString m = true) :
    numsOk m = true := by
  cases m <;> simp_all [typeofIsString, numsOk]

theorem numsOk_jsEnvelope (d st m : JSValue) (hd : numsOk d = true)
    (hst : numsOk st = true) (hm : numsOk m = true) :
    numsOk (jsEnvelope d st m) = true := by
  show numsOkFields [(statusKey, st), (messageKey, m),
    (dataKey, if jsTruthy d then d else .obj [])] = true
  have h3 : numsOk (if jsTruthy d then d else .obj []) = true := by
    by_cases ht : jsTruthy d = true
    · rw [if_pos ht]; exact hd
    · rw [if_neg ht]; rfl
  simp [numsOkFields, hst, hm, h3]

theorem wfPHP_of_is_int {st : PHP.PHPValue} (h : PHP.is_int st = true) :
    PHP.wfPHP st = true := by
  cases st <;> simp_all [PHP.is_int, PHP.wfPHP]

/-! Section: Claim theorems -/

/-- C1 counterexample: a data payload that is neither null nor an array
refutes "any data payload ... raises no error" for the PHP variant: at
the valid status 200 and string message "Success", the payload `'oops'`
makes the PHP build throw `InvalidArgumentException('Data must be an
array or null')` and produce no output. -/
theorem C1_counterexample :
    (100 : ℤ) ≤ 200 ∧ (200 : ℤ) ≤ 599 ∧
    PHP.jsonResponse (.str ("oops")) (.int 200) (.str ("Success")) =
      .error PHP.dataErrorMsg ∧
    (∀ out, PHP.jsonResponse (.str ("oops")) (.int 200) (.str ("Success")) ≠
      .ok out) := by
  have herr : PHP.jsonResponse (.str ("oops")) (.int 200) (.str ("Success")) =
      .error PHP.dataErrorMsg :=
    PHP.responseDataBad _ _ _ (by decide) rfl rfl rfl
  refine ⟨by decide, by decide, herr, ?_⟩
  intro out hok
  rw [herr] at hok
  exact absurd hok (by simp)

/-- C1 amended: for every integer status `s` with `100 ≤ s ≤ 599` and
every string message `m`: the JS/TS variant succeeds for ANY data
payload, the returned string serializes an object whose `status` field
is `s` and whose `message` field is `m`, and (for payloads whose numbers
are integral — the model boundary) JSON-decoding the returned string
succeeds and the decoded object's `status` and `message` fields are `s`
and `m`; the Go variant succeeds for any payload; the PHP variant
succeeds exactly for null or array payloads and raises
`InvalidDataType` for every other payload, so the original "any data
payload" is false there. -/
theorem C1_valid_inputs_build_ok (s : ℤ) (m : String) (d : JSValue)
    (dg : GoLib.GoValue) (h1 : 100 ≤ s) (h2 : s ≤ 599) :
    (jsonResponse d (.num (s : ℚ)) (.str m) =
        .ok (stringifyPretty2 (jsEnvelope d (.num (s : ℚ)) (.str m))) ∧
      lookupField (jsEnvelope d (.num (s : ℚ)) (.str m)) statusKey =
        some (.num (s : ℚ)) ∧
      lookupField (jsEnvelope d (.num (s : ℚ)) (.str m)) messageKey =
        some (.str m) ∧
      (numsOk d = true →
        parseJson (stringifyPretty2 (jsEnvelope d (.num (s : ℚ)) (.str m))) =
          some (stripJS (jsEnvelope d (.num (s : ℚ)) (.str m))) ∧
        lookupField (stripJS (jsEnvelope d (.num (s : ℚ)) (.str m))) statusKey =
          some (.num (s : ℚ)) ∧
        lookupField (stripJS (jsEnvelope d (.num (s : ℚ)) (.str m))) messageKey =
          some (.str m))) ∧
    (∀ dp : PHP.PHPValue,
      (PHP.isNull dp = true ∨ PHP.is_array dp = true →
        PHP.jsonResponse dp (.int s) (.str m) =
          .ok (PHP.json_encodePretty (.arr [(.s statusKey, .int s),
            (.s messageKey, .str m),
            (.s dataKey, if PHP.isNull dp then .arr [] else dp)]))) ∧
      (PHP.isNull dp = false → PHP.is_array dp = false →
        PHP.jsonResponse dp (.int s) (.str m) = .error PHP.dataErrorMsg)) ∧
    GoLib.JsonResponse dg s m = .ok (GoLib.marshalIndentResponse s m dg) := by
  refine ⟨⟨?_, ?_, ?_, ?_⟩, ?_, ?_⟩
  · exact jsonResponse_ok d _ _ (jsStatusBad_intCast_false h1 h2) rfl
  · rfl
  · rfl
  · intro hnd
    have hnum : numsOk (jsEnvelope d (.num (s : ℚ)) (.str m)) = true :=
      numsOk_jsEnvelope d _ _ hnd (by simp [numsOk, Rat.den_intCast]) rfl
    have hwfs : wfJS (stripJS (jsEnvelope d (.num (s : ℚ)) (.str m))) = true :=
      (wfJS_stripJS (pfuel (jsEnvelope d (.num (s : ℚ)) (.str m)))).1 _ le_rfl hnum
    have hsereq : serVal (stripJS (jsEnvelope d (.num (s : ℚ)) (.str m))) 0 =
        serVal (jsEnvelope d (.num (s : ℚ)) (.str m)) 0 :=
      (serVal_stripJS (pfuel (jsEnvelope d (.num (s : ℚ)) (.str m)))).1 _ 0
        le_rfl rfl
    have hstr2 : stringifyPretty2 (stripJS (jsEnvelope d (.num (s : ℚ)) (.str m))) =
        stringifyPretty2 (jsEnvelope d (.num (s : ℚ)) (.str m)) := by
      show String.mk (serVal (stripJS (jsEnvelope d (.num (s : ℚ)) (.str m))) 0) = _
      rw [hsereq]
      rfl
    refine ⟨?_, rfl, rfl⟩
    rw [← hstr2]
    exact parseJson_stringifyPretty2 hwfs
  · intro dp
    constructor
    · intro hdp
      exact PHP.responseOk dp _ _ (PHP.phpStatusBad_int_false h1 h2) rfl hdp
    · intro hn ha
      exact PHP.responseDataBad dp _ _ (PHP.phpStatusBad_int_false h1 h2) rfl hn ha
  · exact GoLib.JsonResponse_ok dg s m h1 h2

/-- Witness for C1 at `s = 200`, `m = "Success"`, concrete payloads for
all three variants (both the accepted and the rejected PHP payload). -/
theorem C1_valid_inputs_build_ok_witness :
    (100 : ℤ) ≤ 200 ∧ (200 : ℤ) ≤ 599 ∧
    (jsonResponse (.obj []) (.num ((200 : ℤ) : ℚ)) (.str ("Success")) =
        .ok (stringifyPretty2 (jsEnvelope (.obj []) (.num ((200 : ℤ) : ℚ))
          (.str ("Success")))) ∧
      lookupField (jsEnvelope (.obj []) (.num ((200 : ℤ) : ℚ)) (.str ("Success")))
        statusKey = some (.num ((200 : ℤ) : ℚ)) ∧
      lookupField (jsEnvelope (.obj []) (.num ((200 : ℤ) : ℚ)) (.str ("Success")))
        messageKey = some (.str ("Success")) ∧
      (numsOk (.obj []) = true →
        parseJson (stringifyPretty2 (jsEnvelope (.obj []) (.num ((200 : ℤ) : ℚ))
          (.str ("Success")))) =
          some (stripJS (jsEnvelope (.obj []) (.num ((200 : ℤ) : ℚ))
            (.str ("Success")))) ∧
        lookupField (stripJS (jsEnvelope (.obj []) (.num ((200 : ℤ) : ℚ))
          (.str ("Success")))) statusKey = some (.num ((200 : ℤ) : ℚ)) ∧
        lookupField (stripJS (jsEnvelope (.obj []) (.num ((200 : ℤ) : ℚ))
          (.str ("Success")))) messageKey = some (.str ("Success")))) ∧
    (PHP.jsonResponse PHP.PHPValue.null (.int 200) (.str ("Success")) =
      .ok (PHP.json_encodePretty (.arr [(.s statusKey, .int 200),
        (.s messageKey, .str ("Success")),
        (.s dataKey, if PHP.isNull PHP.PHPValue.null then .arr []
          else PHP.PHPValue.null)]))) ∧
    (PHP.jsonResponse (.str ("nope")) (.int 200) (.str ("Success")) =
      .error PHP.dataErrorMsg) ∧
    GoLib.JsonResponse GoLib.GoValue.nil 200 "Success" =
      .ok (GoLib.marshalIndentResponse 200 "Success" GoLib.GoValue.nil) :=
  ⟨by decide, by decide,
    (C1_valid_inputs_build_ok 200 ("Success") (.obj []) GoLib.GoValue.nil
      (by decide) (by decide)).1,
    ((C1_valid_inputs_build_ok 200 ("Success") (.obj []) GoLib.GoValue.nil
      (by decide) (by decide)).2.1 PHP.PHPValue.null).1 (Or.inl rfl),
    ((C1_valid_inputs_build_ok 200 ("Success") (.obj []) GoLib.GoValue.nil
      (by decide) (by decide)).2.1 (.str ("nope"))).2 rfl rfl,
    (C1_valid_inputs_build_ok 200 ("Success") (.obj []) GoLib.GoValue.nil
      (by decide) (by decide)).2.2⟩

/-- C2 counterexample: in the JS variant the non-integer number `200.5`
(and likewise `NaN`) passes the status check — `typeof 200.5 ===
'number'` and `100 ≤ 200.5 ≤ 599` — so the build SUCCEEDS instead of
failing with `InvalidStatusCode` as the claim requires for every
non-integer status. -/
theorem C2_counterexample :
    (mkRat 401 2).den ≠ 1 ∧ (100 : ℚ) ≤ mkRat 401 2 ∧ mkRat 401 2 ≤ 599 ∧
    (jsonResponse (.obj []) (.num (mkRat 401 2)) (.str ("ok"))).isOk = true ∧
    (jsonResponse (.obj []) (.nan) (.str ("ok"))).isOk = true := by
  refine ⟨by decide, ?_, ?_, ?_, rfl⟩
  · rw [Rat.mkRat_eq_div]; norm_num
  · rw [Rat.mkRat_eq_div]; norm_num
  · rw [jsonResponse_ok (.obj []) (.num (mkRat 401 2)) (.str ("ok")) (by decide) rfl]
    rfl

/-- C2 amended: the PHP variant behaves exactly as the claim states
(`is_int` rejects every non-integer).  The JS variant fails with
`InvalidStatusCode` exactly when `typeof status !== 'number'`, or the
number compares below 100 or above 599; non-integer numbers inside
`[100, 599]` (such as `200.5`) and `NaN` are accepted.  The error text
contains the substring "valid HTTP status code". -/
theorem C2_amended :
    (∀ d st m, jsStatusBad st = true → jsonResponse d st m = .error statusErrorMsg) ∧
    (∀ d st m, jsStatusBad st = false → typeofIsString m = true →
      (jsonResponse d st m).isOk = true) ∧
    jsStatusBad (.num (mkRat 401 2)) = false ∧
    jsStatusBad .nan = false ∧
    (∀ d st m, PHP.phpStatusBad st = true →
      PHP.jsonResponse d st m = .error statusErrorMsg) ∧
    (∀ st : PHP.PHPValue, PHP.is_int st = false → PHP.phpStatusBad st = true) ∧
    (∀ n : ℤ, (n < 100 ∨ n > 599) → PHP.phpStatusBad (.int n) = true) ∧
    (∃ p q', statusErrorMsg = p ++ "valid HTTP status code" ++ q') := by
  refine ⟨?_, ?_, by decide, rfl, ?_, ?_, ?_, ?_⟩
  · exact jsonResponse_statusBad
  · intro d st m h hm
    rw [jsonResponse_ok d st m h hm]
    rfl
  · exact PHP.responseStatusBad
  · intro st h
    simp [PHP.phpStatusBad, h]
  · intro n h
    simp only [PHP.phpStatusBad, PHP.is_int, PHP.phpLt, PHP.phpGt, Bool.not_true,
      Bool.false_or, Bool.or_eq_true, decide_eq_true_eq]
    omega
  · exact ⟨"Status must be a ", " (100-599)", rfl⟩

/-- Witness for C2's amended statement at concrete inputs. -/
theorem C2_amended_witness :
    jsonResponse (.obj []) (.str ("bad")) (.str ("m")) = .error statusErrorMsg ∧
    (jsonResponse (.obj []) (.num 200) (.str ("m"))).isOk = true ∧
    PHP.jsonResponse (.arr []) (.str ("bad")) (.str ("m")) = .error statusErrorMsg ∧
    PHP.phpStatusBad (.str ("bad")) = true ∧
    PHP.phpStatusBad (.int 99) = true :=
  ⟨C2_amended.1 (.obj []) (.str ("bad")) (.str ("m")) rfl,
    C2_amended.2.1 (.obj []) (.num 200) (.str ("m")) (by decide) rfl,
    C2_amended.2.2.2.2.1 (.arr []) (.str ("bad")) (.str ("m")) rfl,
    C2_amended.2.2.2.2.2.1 (.str ("bad")) rfl,
    C2_amended.2.2.2.2.2.2.1 99 (Or.inl (by decide))⟩

/-- C3: for every non-string message and a valid status (200), both the
JS and the PHP variants fail with `InvalidMessageType`, and the error
text contains "Message must be a string". -/
theorem C3_nonstring_message_rejected (m : JSValue) (hm : typeofIsString m = false)
    (mp : PHP.PHPValue) (hmp : PHP.is_string mp = false)
    (d : JSValue) (dp : PHP.PHPValue) :
    jsonResponse d (.num 200) m = .error messageErrorMsg ∧
    PHP.jsonResponse dp (.int 200) mp = .error messageErrorMsg ∧
    (∃ p q', messageErrorMsg = p ++ "Message must be a string" ++ q') :=
  ⟨jsonResponse_messageBad d _ m (by decide) hm,
    PHP.responseMessageBad dp _ mp (by decide) hmp,
    ⟨"", "", rfl⟩⟩

/-- Witness for C3 at the numeric message `123` (the scenario the test
suites use). -/
theorem C3_nonstring_message_rejected_witness :
    jsonResponse (.obj []) (.num 200) (.num 123) = .error messageErrorMsg ∧
    PHP.jsonResponse (.arr []) (.int 200) (.int 123) = .error messageErrorMsg ∧
    (∃ p q', messageErrorMsg = p ++ "Message must be a string" ++ q') :=
  C3_nonstring_message_rejected (.num 123) rfl (.int 123) rfl (.obj []) (.arr [])

/-- C4 counterexample: the claim demands that `build()` with all
arguments omitted decode to exactly
`\x7bstatus: 200, message: "", data: \x7b\x7d\x7d`, with `data` an empty MAPPING.
The PHP variant (cited by the claim) serializes its default empty-array
data as the JSON ARRAY `[]`, so the decoded `data` field is an empty
sequence, not an empty mapping. -/
theorem C4_counterexample :
    PHP.jsonResponse PHP.phpDefaultData PHP.phpDefaultStatus PHP.phpDefaultMessage =
      .ok phpDefaultOutput ∧
    parseJson phpDefaultOutput =
      some (.obj [(statusKey, .num 200), (messageKey, .str ""), (dataKey, .arr [])]) ∧
    JSValue.arr [] ≠ JSValue.obj [] :=
  ⟨rfl, rfl, by simp⟩

/-- C4 amended: with all arguments at their defaults, the JS variant
returns a string decoding to exactly `\x7bstatus: 200, message: "",
data: \x7b\x7d\x7d`; the PHP variant also succeeds with status 200 and empty
message, but its `data` field decodes to the empty JSON array `[]`
(PHP serializes its empty mapping as `[]`). -/
theorem C4_default_build :
    jsonResponse jsDefaultData jsDefaultStatus jsDefaultMessage =
      .ok jsDefaultOutput ∧
    parseJson jsDefaultOutput =
      some (.obj [(statusKey, .num 200), (messageKey, .str ""), (dataKey, .obj [])]) ∧
    PHP.jsonResponse PHP.phpDefaultData PHP.phpDefaultStatus PHP.phpDefaultMessage =
      .ok phpDefaultOutput ∧
    parseJson phpDefaultOutput =
      some (.obj [(statusKey, .num 200), (messageKey, .str ""), (dataKey, .arr [])]) :=
  ⟨rfl, rfl, rfl, rfl⟩

/-- C5 counterexample: in the Go variant a nil data payload is NOT
normalized to an empty mapping: `JsonResponse(nil, 200, "Success")`
serializes the `data` field as JSON `null` (the Go test suite itself
asserts "nil data should remain nil in JSON").  So "in every language
variant ... the serialized data field is the empty mapping" is false. -/
theorem C5_counterexample :
    GoLib.JsonResponse .nil 200 "Success" = .ok goNilOutput ∧
    parseJson goNilOutput =
      some (.obj [(statusKey, .num 200), (messageKey, .str ("Success")),
        (dataKey, .null)]) ∧
    JSValue.null ≠ JSValue.obj [] :=
  ⟨rfl, rfl, by simp⟩

/-- C5 amended: with a null/absent payload and valid status and message,
the JS variant normalizes `data` to the empty mapping `\x7b\x7d`; the PHP
variant normalizes null to its empty array, which serializes as the JSON
array `[]`; the Go variant does not normalize — nil data serializes as
JSON `null`. -/
theorem C5_null_data_normalization (s : ℤ) (m : String)
    (h1 : 100 ≤ s) (h2 : s ≤ 599) :
    jsonResponse .null (.num (s : ℚ)) (.str m) =
      .ok (stringifyPretty2 (.obj [(statusKey, .num (s : ℚ)), (messageKey, .str m),
        (dataKey, .obj [])])) ∧
    PHP.jsonResponse .null (.int s) (.str m) =
      .ok (PHP.json_encodePretty (.arr [(.s statusKey, .int s), (.s messageKey, .str m),
        (.s dataKey, .arr [])])) ∧
    PHP.phpEnc (.arr []) 1 = ['[', ']'] ∧
    GoLib.JsonResponse .nil s m = .ok (GoLib.marshalIndentResponse s m .nil) ∧
    GoLib.goSer .nil 1 = nullChars := by
  refine ⟨?_, ?_, rfl, GoLib.JsonResponse_ok _ s m h1 h2, rfl⟩
  · exact jsonResponse_ok .null _ _ (jsStatusBad_intCast_false h1 h2) rfl
  · exact PHP.responseOk .null _ _ (PHP.phpStatusBad_int_false h1 h2) rfl
      (Or.inl rfl)

/-- Witness for C5's amended statement at `s = 200`, `m = "Success"`. -/
theorem C5_null_data_normalization_witness :
    (100 : ℤ) ≤ 200 ∧ (200 : ℤ) ≤ 599 ∧
    (jsonResponse .null (.num ((200 : ℤ) : ℚ)) (.str ("Success")) =
      .ok (stringifyPretty2 (.obj [(statusKey, .num ((200 : ℤ) : ℚ)),
        (messageKey, .str ("Success")), (dataKey, .obj [])])) ∧
    PHP.jsonResponse .null (.int 200) (.str ("Success")) =
      .ok (PHP.json_encodePretty (.arr [(.s statusKey, .int 200),
        (.s messageKey, .str ("Success")), (.s dataKey, .arr [])])) ∧
    PHP.phpEnc (.arr []) 1 = ['[', ']'] ∧
    GoLib.JsonResponse .nil 200 "Success" =
      .ok (GoLib.marshalIndentResponse 200 "Success" .nil) ∧
    GoLib.goSer .nil 1 = nullChars) :=
  ⟨by decide, by decide,
    C5_null_data_normalization 200 ("Success") (by decide) (by decide)⟩

/-- C6 counterexample: the PHP variant's successful output is NOT the
two-space-indented rendering: re-encoding its decoded value with the
(two-space, fixed key order) format yields a different string, because
PHP's `JSON_PRETTY_PRINT` indents with four spaces. -/
theorem C6_counterexample :
    PHP.jsonResponse (.arr []) (.int 200) (.str "") = .ok phpDefaultOutput ∧
    parseJson phpDefaultOutput =
      some (.obj [(statusKey, .num 200), (messageKey, .str ""), (dataKey, .arr [])]) ∧
    stringifyPretty2 (.obj [(statusKey, .num 200), (messageKey, .str ""),
      (dataKey, .arr [])]) ≠ phpDefaultOutput :=
  ⟨rfl, rfl, by decide⟩

/-- C6 amended: the JS/TS and Go variants pretty-print with two-space
indentation and the PHP variant with four-space indentation; the key
order `status, message, data` is fixed in all variants, proved for
EVERY successful call of each variant: every JS output is its
serializer applied to the status/message/data object, every Go output
is its marshal model of the status/message/data struct, and every PHP
output is its encoder applied to the status/message/data array (shown
literally on the repository's example input as well). -/
theorem C6_output_format :
    jsonResponse (.obj [("user", .str ("John"))]) (.num 200) (.str ("Success")) =
      .ok jsUserOutput ∧
    GoLib.JsonResponse (.map [("user", .str ("John"))]) 200 "Success" =
      .ok goUserOutput ∧
    PHP.jsonResponse (.arr [(.s ("user"), .str ("John"))]) (.int 200)
      (.str ("Success")) = .ok phpUserOutput ∧
    jsUserOutput ≠ phpUserOutput ∧
    (∀ d st m out, jsonResponse d st m = .ok out →
      ∃ sv mv dv, out = stringifyPretty2 (.obj [(statusKey, sv), (messageKey, mv),
        (dataKey, dv)])) ∧
    (∀ dg s m out, GoLib.JsonResponse dg s m = .ok out →
      out = GoLib.marshalIndentResponse s m dg) ∧
    (∀ dp stp mp out, PHP.jsonResponse dp stp mp = .ok out →
      ∃ sv mv dv, out = PHP.json_encodePretty (.arr [(.s statusKey, sv),
        (.s messageKey, mv), (.s dataKey, dv)])) := by
  refine ⟨rfl, rfl, rfl, by decide, ?_, ?_, ?_⟩
  · intro d st m out hok
    by_cases hst : jsStatusBad st = true
    · rw [jsonResponse_statusBad d st m hst] at hok
      exact absurd hok (by simp)
    · by_cases hm : typeofIsString m = true
      · rw [jsonResponse_ok d st m (by simpa using hst) hm] at hok
        exact ⟨st, m, if jsTruthy d then d else .obj [], by
          injection hok with h
          rw [← h]
          rfl⟩
      · rw [jsonResponse_messageBad d st m (by simpa using hst) (by simpa using hm)]
          at hok
        exact absurd hok (by simp)
  · intro dg s m out hok
    unfold GoLib.JsonResponse at hok
    split at hok
    · exact absurd hok (by simp)
    · injection hok with h
      exact h.symm
  · intro dp stp mp out hok
    by_cases hbad : PHP.phpStatusBad stp = true
    · rw [PHP.responseStatusBad dp stp mp hbad] at hok
      exact absurd hok (by simp)
    · by_cases hstr : PHP.is_string mp = true
      · by_cases hdat : PHP.isNull dp = true ∨ PHP.is_array dp = true
        · rw [PHP.responseOk dp stp mp (by simpa using hbad) hstr hdat] at hok
          injection hok with h
          exact ⟨stp, mp, if PHP.isNull dp then .arr [] else dp, h.symm⟩
        · have hn : PHP.isNull dp = false := by
            by_contra hc
            exact hdat (Or.inl (by simpa using hc))
          have ha : PHP.is_array dp = false := by
            by_contra hc
            exact hdat (Or.inr (by simpa using hc))
          rw [PHP.responseDataBad dp stp mp (by simpa using hbad) hstr hn ha] at hok
          exact absurd hok (by simp)
      · rw [PHP.responseMessageBad dp stp mp (by simpa using hbad)
          (by simpa using hstr)] at hok
        exact absurd hok (by simp)

/-- Witness for C6's amended statement (the universal key-order parts of
all three variants) at concrete successful calls. -/
theorem C6_output_format_witness :
    (jsonResponse jsDefaultData jsDefaultStatus jsDefaultMessage =
        .ok jsDefaultOutput ∧
      (∃ sv mv dv, jsDefaultOutput = stringifyPretty2 (.obj [(statusKey, sv),
        (messageKey, mv), (dataKey, dv)]))) ∧
    (GoLib.JsonResponse GoLib.GoValue.nil 200 "Success" = .ok goNilOutput ∧
      goNilOutput = GoLib.marshalIndentResponse 200 "Success" GoLib.GoValue.nil) ∧
    (PHP.jsonResponse PHP.phpDefaultData PHP.phpDefaultStatus
        PHP.phpDefaultMessage = .ok phpDefaultOutput ∧
      (∃ sv mv dv, phpDefaultOutput = PHP.json_encodePretty
        (.arr [(.s statusKey, sv), (.s messageKey, mv), (.s dataKey, dv)]))) :=
  ⟨⟨rfl, C6_output_format.2.2.2.2.1 jsDefaultData jsDefaultStatus jsDefaultMessage
      jsDefaultOutput rfl⟩,
    ⟨rfl, C6_output_format.2.2.2.2.2.1 GoLib.GoValue.nil 200 "Success"
      goNilOutput rfl⟩,
    ⟨rfl, C6_output_format.2.2.2.2.2.2 PHP.phpDefaultData PHP.phpDefaultStatus
      PHP.phpDefaultMessage phpDefaultOutput rfl⟩⟩

/-- C7: validation runs in the fixed order status, message, data.  When
several arguments are invalid at once, the earliest invalid one in that
order determines the error: an invalid status always yields
`InvalidStatusCode` (JS and PHP, for any message/data), an invalid
message with a valid status always yields `InvalidMessageType` (for any
data), and only then is data checked (PHP). -/
theorem C7_validation_order :
    (∀ d st m, jsStatusBad st = true → jsonResponse d st m = .error statusErrorMsg) ∧
    (∀ d st m, jsStatusBad st = false → typeofIsString m = false →
      jsonResponse d st m = .error messageErrorMsg) ∧
    (∀ d st m, PHP.phpStatusBad st = true →
      PHP.jsonResponse d st m = .error statusErrorMsg) ∧
    (∀ d st m, PHP.phpStatusBad st = false → PHP.is_string m = false →
      PHP.jsonResponse d st m = .error messageErrorMsg) ∧
    (∀ d st m, PHP.phpStatusBad st = false → PHP.is_string m = true →
      PHP.isNull d = false → PHP.is_array d = false →
      PHP.jsonResponse d st m = .error PHP.dataErrorMsg) :=
  ⟨jsonResponse_statusBad, jsonResponse_messageBad,
    PHP.responseStatusBad, PHP.responseMessageBad,
    PHP.responseDataBad⟩

/-- Witness for C7: with status, message AND data simultaneously invalid
the status error wins; with message and data invalid the message error
wins; with only data invalid the data error surfaces. -/
theorem C7_validation_order_witness :
    jsonResponse (.num 0) (.str ("bad")) (.num 5) = .error statusErrorMsg ∧
    jsonResponse (.num 0) (.num 200) (.num 5) = .error messageErrorMsg ∧
    PHP.jsonResponse (.str ("bad")) (.str ("bad")) (.int 5) = .error statusErrorMsg ∧
    PHP.jsonResponse (.str ("bad")) (.int 200) (.int 5) = .error messageErrorMsg ∧
    PHP.jsonResponse (.str ("bad")) (.int 200) (.str ("ok")) = .error PHP.dataErrorMsg :=
  ⟨C7_validation_order.1 (.num 0) (.str ("bad")) (.num 5) rfl,
    C7_validation_order.2.1 (.num 0) (.num 200) (.num 5) (by decide) rfl,
    C7_validation_order.2.2.1 (.str ("bad")) (.str ("bad")) (.int 5) rfl,
    C7_validation_order.2.2.2.1 (.str ("bad")) (.int 200) (.int 5) (by decide) rfl,
    C7_validation_order.2.2.2.2 (.str ("bad")) (.int 200) (.str ("ok")) (by decide)
      rfl rfl rfl⟩

/-- C8: in the strict-mode (PHP) variant, every data payload that is
neither null nor an array is rejected with `InvalidDataType` at any
valid status and any string message; no output string is produced, and
the error text contains "Data must be an array or null". -/
theorem C8_strict_data_rejected (d : PHP.PHPValue) (hn : PHP.isNull d = false)
    (ha : PHP.is_array d = false) (s : ℤ) (m : String)
    (h1 : 100 ≤ s) (h2 : s ≤ 599) :
    PHP.jsonResponse d (.int s) (.str m) = .error PHP.dataErrorMsg ∧
    (∀ out, PHP.jsonResponse d (.int s) (.str m) ≠ .ok out) ∧
    (∃ p q', PHP.dataErrorMsg = p ++ "Data must be an array or null" ++ q') := by
  have herr := PHP.responseDataBad d (.int s) (.str m)
    (PHP.phpStatusBad_int_false h1 h2) rfl hn ha
  exact ⟨herr, fun out hok => by rw [herr] at hok; exact absurd hok (by simp),
    ⟨"", "", rfl⟩⟩

/-- Witness for C8 at the test suite's own failing input
`jsonResponse('invalid', 200, 'test')`. -/
theorem C8_strict_data_rejected_witness :
    PHP.isNull (.str ("invalid")) = false ∧ PHP.is_array (.str ("invalid")) = false ∧
    (100 : ℤ) ≤ 200 ∧ (200 : ℤ) ≤ 599 ∧
    (PHP.jsonResponse (.str ("invalid")) (.int 200) (.str ("test")) =
        .error PHP.dataErrorMsg ∧
      (∀ out, PHP.jsonResponse (.str ("invalid")) (.int 200) (.str ("test")) ≠
        .ok out) ∧
      (∃ p q', PHP.dataErrorMsg = p ++ "Data must be an array or null" ++ q')) :=
  ⟨rfl, rfl, by decide, by decide,
    C8_strict_data_rejected (.str ("invalid")) rfl rfl 200 ("test")
      (by decide) (by decide)⟩

theorem wfJS_jsEnvelope_of (d st m : JSValue) (hd : wfJS d = true)
    (hst : wfJS st = true) (hm : wfJS m = true) :
    wfJS (jsEnvelope d st m) = true := by
  show wfFields [(statusKey, st), (messageKey, m),
    (dataKey, if jsTruthy d then d else .obj [])] = true
  have h3 : wfJS (if jsTruthy d then d else .obj []) = true := by
    by_cases ht : jsTruthy d = true
    · rw [if_pos ht]; exact hd
    · rw [if_neg ht]; rfl
  simp [wfFields, hst, hm, h3]

/-- C9: stable serialization.  For every successful call of the JS/TS
builder on inputs whose numbers are integral (the printing of
non-integral doubles is beyond the rational-number model; `undefined`
and `NaN` are allowed anywhere), JSON-decoding the returned string
succeeds and re-encoding the decoded value with the builder's own field
order and two-space formatting reproduces the identical string; for
every successful call of the PHP builder on inputs with integral floats
and basic-multilingual-plane strings, JSON-decoding the returned string
succeeds and the decoded value re-encodes under PHP's own field order
and four-space formatting to the identical string. -/
theorem C9_roundtrip_stable :
    (∀ d st m out, jsonResponse d st m = .ok out →
      numsOk d = true → numsOk st = true →
      ∃ v, parseJson out = some v ∧ stringifyPretty2 v = out) ∧
    (∀ dp stp mp out, PHP.jsonResponse dp stp mp = .ok out →
      PHP.wfPHP dp = true → PHP.wfPHP mp = true →
      ∃ env, parseJson out = some (PHP.phpToJS env) ∧
        PHP.json_encodePretty env = out) := by
  constructor
  · intro d st m out hok hnd hnst
    by_cases hbad : jsStatusBad st = true
    · rw [jsonResponse_statusBad d st m hbad] at hok
      exact absurd hok (by simp)
    · by_cases hstr : typeofIsString m = true
      · rw [jsonResponse_ok d st m (by simpa using hbad) hstr] at hok
        injection hok with h
        have hnum : numsOk (jsEnvelope d st m) = true :=
          numsOk_jsEnvelope d st m hnd hnst (numsOk_of_string hstr)
        have hwfs : wfJS (stripJS (jsEnvelope d st m)) = true :=
          (wfJS_stripJS (pfuel (jsEnvelope d st m))).1 _ le_rfl hnum
        have hsereq : serVal (stripJS (jsEnvelope d st m)) 0 =
            serVal (jsEnvelope d st m) 0 :=
          (serVal_stripJS (pfuel (jsEnvelope d st m))).1 _ 0 le_rfl rfl
        have hstr2 : stringifyPretty2 (stripJS (jsEnvelope d st m)) =
            stringifyPretty2 (jsEnvelope d st m) := by
          show String.mk (serVal (stripJS (jsEnvelope d st m)) 0) = _
          rw [hsereq]
          rfl
        refine ⟨stripJS (jsEnvelope d st m), ?_, by rw [hstr2, h]⟩
        rw [← h, ← hstr2]
        exact parseJson_stringifyPretty2 hwfs
      · rw [jsonResponse_messageBad d st m (by simpa using hbad)
          (by simpa using hstr)] at hok
        exact absurd hok (by simp)
  · intro dp stp mp out hok hwdp hwmp
    by_cases hbad : PHP.phpStatusBad stp = true
    · rw [PHP.responseStatusBad dp stp mp hbad] at hok
      exact absurd hok (by simp)
    · by_cases hstr : PHP.is_string mp = true
      · by_cases hdat : PHP.isNull dp = true ∨ PHP.is_array dp = true
        · rw [PHP.responseOk dp stp mp (by simpa using hbad) hstr hdat] at hok
          injection hok with h
          have hbad2 : PHP.phpStatusBad stp = false := by simpa using hbad
          have hint : PHP.is_int stp = true := by
            by_contra hni
            simp only [Bool.not_eq_true] at hni
            simp [PHP.phpStatusBad, hni] at hbad2
          have hwst : PHP.wfPHP stp = true := wfPHP_of_is_int hint
          have hwd2 : PHP.wfPHP (if PHP.isNull dp then PHP.PHPValue.arr []
              else dp) = true := by
            by_cases hn : PHP.isNull dp = true
            · rw [if_pos hn]; rfl
            · rw [if_neg hn]; exact hwdp
          have hk1 : PHP.wfPHPKey (.s statusKey) = true := by decide
          have hk2 : PHP.wfPHPKey (.s messageKey) = true := by decide
          have hk3 : PHP.wfPHPKey (.s dataKey) = true := by decide
          have henv : PHP.wfPHP (PHP.PHPValue.arr [(.s statusKey, stp),
              (.s messageKey, mp),
              (.s dataKey, if PHP.isNull dp then PHP.PHPValue.arr []
                else dp)]) = true := by
            show PHP.wfPHPEntries _ = true
            simp [PHP.wfPHPEntries, hk1, hk2, hk3, hwst, hwmp, hwd2]
          refine ⟨PHP.PHPValue.arr [(.s statusKey, stp), (.s messageKey, mp),
            (.s dataKey, if PHP.isNull dp then PHP.PHPValue.arr [] else dp)],
            ?_, h⟩
          rw [← h]
          exact parseJson_phpEncode henv
        · have hn : PHP.isNull dp = false := by
            by_contra hc
            exact hdat (Or.inl (by simpa using hc))
          have ha : PHP.is_array dp = false := by
            by_contra hc
            exact hdat (Or.inr (by simpa using hc))
          rw [PHP.responseDataBad dp stp mp (by simpa using hbad) hstr hn ha] at hok
          exact absurd hok (by simp)
      · rw [PHP.responseMessageBad dp stp mp (by simpa using hbad)
          (by simpa using hstr)] at hok
        exact absurd hok (by simp)

/-- Witness for C9 at the repository's basic example call, in the JS and
the PHP variant. -/
theorem C9_roundtrip_stable_witness :
    (jsonResponse (.obj [("user", .str ("John"))]) (.num 200) (.str ("Success")) =
        .ok jsUserOutput ∧
      numsOk (.obj [("user", .str ("John"))]) = true ∧
      numsOk (.num 200) = true ∧
      (∃ v, parseJson jsUserOutput = some v ∧
        stringifyPretty2 v = jsUserOutput)) ∧
    (PHP.jsonResponse (.arr [(.s ("user"), .str ("John"))]) (.int 200)
        (.str ("Success")) = .ok phpUserOutput ∧
      PHP.wfPHP (.arr [(.s ("user"), .str ("John"))]) = true ∧
      PHP.wfPHP (.str ("Success")) = true ∧
      (∃ env, parseJson phpUserOutput = some (PHP.phpToJS env) ∧
        PHP.json_encodePretty env = phpUserOutput)) :=
  ⟨⟨rfl, rfl, by decide,
      C9_roundtrip_stable.1 (.obj [("user", .str ("John"))]) (.num 200)
        (.str ("Success")) jsUserOutput rfl rfl (by decide)⟩,
    ⟨rfl, by decide, by decide,
      C9_roundtrip_stable.2 (.arr [(.s ("user"), .str ("John"))]) (.int 200)
        (.str ("Success")) phpUserOutput rfl (by decide) (by decide)⟩⟩

/-- C10: in the JS/TS variant, `data || \x7b\x7d` replaces every falsy data
argument (`undefined`, `null`, `false`, `0`, `NaN`, `""`) by the empty
mapping, while every truthy argument — including non-mapping values such
as arrays, non-empty strings and non-zero numbers — is passed through
and serialized unchanged. -/
theorem C10_falsy_data_normalized (d st m : JSValue)
    (hst : jsStatusBad st = false) (hm : typeofIsString m = true) :
    (jsTruthy d = false →
      jsonResponse d st m = .ok (stringifyPretty2 (.obj [(statusKey, st),
        (messageKey, m), (dataKey, .obj [])]))) ∧
    (jsTruthy d = true →
      jsonResponse d st m = .ok (stringifyPretty2 (.obj [(statusKey, st),
        (messageKey, m), (dataKey, d)]))) ∧
    (jsTruthy .null = false ∧ jsTruthy .undef = false ∧ jsTruthy (.num 0) = false ∧
      jsTruthy .nan = false ∧ jsTruthy (.str ("")) = false ∧
      jsTruthy (.bool false) = false) ∧
    (∀ l, jsTruthy (.arr l) = true) ∧ (∀ fs, jsTruthy (.obj fs) = true) ∧
    (∀ s : String, ¬s = "" → jsTruthy (.str s) = true) ∧
    (∀ q : ℚ, ¬q = 0 → jsTruthy (.num q) = true) := by
  refine ⟨?_, ?_, by decide, fun l => rfl, fun fs => rfl, ?_, ?_⟩
  · intro ht
    rw [jsonResponse_ok d st m hst hm]
    have henv : jsEnvelope d st m = .obj [(statusKey, st), (messageKey, m),
        (dataKey, .obj [])] := by
      unfold jsEnvelope
      rw [if_neg (by simp [ht])]
    rw [henv]
  · intro ht
    rw [jsonResponse_ok d st m hst hm]
    have henv : jsEnvelope d st m = .obj [(statusKey, st), (messageKey, m),
        (dataKey, d)] := by
      unfold jsEnvelope
      rw [if_pos ht]
    rw [henv]
  · intro s hs
    simp [jsTruthy, hs]
  · intro q hq
    simp [jsTruthy, hq]

/-- Witness for C10: the falsy payloads `null` and `0` serialize with
`data: \x7b\x7d`, while the truthy non-mapping payloads `[]` and `"x"` pass
through unchanged. -/
theorem C10_falsy_data_normalized_witness :
    jsonResponse .null (.num 200) (.str ("ok")) =
      .ok (stringifyPretty2 (.obj [(statusKey, .num 200), (messageKey, .str ("ok")),
        (dataKey, .obj [])])) ∧
    jsonResponse (.num 0) (.num 200) (.str ("ok")) =
      .ok (stringifyPretty2 (.obj [(statusKey, .num 200), (messageKey, .str ("ok")),
        (dataKey, .obj [])])) ∧
    jsonResponse (.arr []) (.num 200) (.str ("ok")) =
      .ok (stringifyPretty2 (.obj [(statusKey, .num 200), (messageKey, .str ("ok")),
        (dataKey, .arr [])])) ∧
    jsonResponse (.str ("x")) (.num 200) (.str ("ok")) =
      .ok (stringifyPretty2 (.obj [(statusKey, .num 200), (messageKey, .str ("ok")),
        (dataKey, .str ("x"))])) :=
  ⟨(C10_falsy_data_normalized .null (.num 200) (.str ("ok")) (by decide) rfl).1 rfl,
    (C10_falsy_data_normalized (.num 0) (.num 200) (.str ("ok")) (by decide) rfl).1
      (by decide),
    (C10_falsy_data_normalized (.arr []) (.num 200) (.str ("ok")) (by decide) rfl).2.1
      rfl,
    (C10_falsy_data_normalized (.str ("x")) (.num 200) (.str ("ok")) (by decide)
      rfl).2.1 (by decide)⟩
